import Mathlib

/-!
Verification development for the PinPointer measurement and results-file core.

The Python sources are shallowly embedded as Lean definitions:

* strings are `List Char`; the Python string operations used by the code
  (`startswith`, `split` on a separator, whitespace `split`, `find`, `rfind`,
  slicing, `strip`, `float(...)`) are modelled character by character;
* Python floats are modelled as real numbers (`ℝ`) in the measurement engine
  and as rationals (`ℚ`) where the code parses or formats decimal text;
* fallible Python code (`IndexError` from list indexing, `ValueError` from
  `float`) is modelled with `Except PyExc`.

The embedded functions keep the names of the source functions where Lean
allows it (`calculate_error`, `calculate_scaling_factor`, `write_results`,
`format_line`, `read_and_display_data`).
-/

namespace PinPointer

/-- Python whitespace test: the default character set of `str.strip()` and
`str.split()` (ASCII part, which is all that the results file can contain). -/
def isWs (c : Char) : Bool :=
  c == ' ' || c == '\t' || c == '\n' || c == '\r' || c == '\x0b' || c == '\x0c'

/-- Decimal digit test. -/
def isDigitCh (c : Char) : Bool :=
  decide (48 ≤ c.toNat) && decide (c.toNat ≤ 57)

/-- Boolean "sep is a prefix of s", modelling Python `str.startswith`. -/
def hasPfx : List Char → List Char → Bool
  | [], _ => true
  | _ :: _, [] => false
  | a :: as, b :: bs => a == b && hasPfx as bs

/-- Python `str.lstrip()`. -/
def pyLStrip (s : List Char) : List Char := s.dropWhile (fun c => isWs c)

/-- Python `str.strip()`. -/
def pyStrip (s : List Char) : List Char :=
  ((pyLStrip s).reverse.dropWhile (fun c => isWs c)).reverse

/-- Python `f"{s:<{w}}"`: left-justify `s` in a field of width `w`. -/
def ljust (w : Nat) (s : List Char) : List Char :=
  s ++ List.replicate (w - s.length) ' '

/-- Decimal digit character for `d < 10`. -/
def digitCh (d : Nat) : Char :=
  if d = 0 then '0' else if d = 1 then '1' else if d = 2 then '2'
  else if d = 3 then '3' else if d = 4 then '4' else if d = 5 then '5'
  else if d = 6 then '6' else if d = 7 then '7' else if d = 8 then '8' else '9'

/-- Fuel-driven decimal rendering of a natural number (digits of `n`, most
significant first); `natRepr` supplies enough fuel. -/
def natReprAux : Nat → Nat → List Char
  | 0, _ => []
  | _ + 1, 0 => []
  | fuel + 1, n + 1 => natReprAux fuel ((n + 1) / 10) ++ [digitCh ((n + 1) % 10)]

/-- Python `str(n)` for a non-negative integer. -/
def natRepr (n : Nat) : List Char :=
  if n = 0 then ['0'] else natReprAux (n + 1) n

/-- Python `str(z)` for an integer. -/
def intRepr (z : Int) : List Char :=
  if z < 0 then '-' :: natRepr z.natAbs else natRepr z.natAbs

/-- Does `sep` occur as a contiguous substring of `s`?  (`sep` is nonempty at
every use site.) -/
def occursB (sep : List Char) : List Char → Bool
  | [] => false
  | c :: rest => hasPfx sep (c :: rest) || occursB sep rest

/-- Fuel-driven core of Python `str.split(sep)` for a nonempty separator:
scan left to right, cutting at each occurrence of `sep`. -/
def splitPyF (sep : List Char) : Nat → List Char → List (List Char)
  | 0, s => [s]
  | _ + 1, [] => [[]]
  | fuel + 1, c :: rest =>
    if hasPfx sep (c :: rest) then
      [] :: splitPyF sep fuel (rest.drop (sep.length - 1))
    else
      (splitPyF sep fuel rest).modifyHead fun h => c :: h

/-- Python `s.split(sep)` for a nonempty separator. -/
def splitPy (sep s : List Char) : List (List Char) := splitPyF sep s.length s

/-- Fuel-driven core of Python `str.split()` (split on whitespace runs,
dropping empty tokens). -/
def wsTokF : Nat → List Char → List (List Char)
  | 0, _ => []
  | _ + 1, [] => []
  | fuel + 1, c :: rest =>
    if isWs c then wsTokF fuel rest
    else (c :: rest.takeWhile fun d => !isWs d) ::
      wsTokF fuel (rest.dropWhile fun d => !isWs d)

/-- Python `s.split()` (no argument: split on whitespace, drop empties). -/
def wsTokens (s : List Char) : List (List Char) := wsTokF s.length s

/-- Position of the first occurrence of `sep` in `s`, if any. -/
def findPosAux (sep : List Char) : List Char → Option Nat
  | [] => none
  | c :: rest =>
    if hasPfx sep (c :: rest) then some 0 else (findPosAux sep rest).map (· + 1)

/-- Python `s.find(sep)`: first occurrence, `-1` when absent. -/
def pyFind (sep s : List Char) : Int :=
  match findPosAux sep s with
  | some n => (n : Int)
  | none => -1

/-- Position of the last occurrence of `sep` in `s`, if any. -/
def rfindPosAux (sep : List Char) : List Char → Option Nat
  | [] => none
  | c :: rest =>
    match rfindPosAux sep rest with
    | some n => some (n + 1)
    | none => if hasPfx sep (c :: rest) then some 0 else none

/-- Python `s.rfind(sep)`: last occurrence, `-1` when absent. -/
def pyRFind (sep s : List Char) : Int :=
  match rfindPosAux sep s with
  | some n => (n : Int)
  | none => -1

/-- Python slicing `s[i:j]` with full negative-index semantics. -/
def pySlice (s : List Char) (i j : Int) : List Char :=
  (s.take (if j < 0 then max 0 ((s.length : Int) + j) else min (s.length : Int) j).toNat).drop
    (if i < 0 then max 0 ((s.length : Int) + i) else min (s.length : Int) i).toNat

/-- Python exceptions raised by the data-review code: `IndexError` from
list indexing, `ValueError` from `float(...)`, and the exception
`pd.DataFrame(data, columns=...)` raises when the row list contains a bare
`None` (a shape-mismatch `ValueError`, or a `TypeError` on the
nested-list path: only the fact that it is raised and is not an
`IndexError` is modelled, not its message). -/
inductive PyExc where
  | indexError : List Char → PyExc
  | valueError : List Char → PyExc
  | pandasError : PyExc
deriving DecidableEq

/-- Decidable equality for `Except`, used to evaluate the embedded parser on
concrete inputs. -/
instance instDecEqExcept {e a : Type} [DecidableEq e] [DecidableEq a] :
    DecidableEq (Except e a) := fun x y =>
  match x, y with
  | Except.error u, Except.error v =>
    if h : u = v then isTrue (congrArg Except.error h)
    else isFalse fun he => h (Except.error.inj he)
  | Except.error _, Except.ok _ => isFalse fun he => Except.noConfusion he
  | Except.ok _, Except.error _ => isFalse fun he => Except.noConfusion he
  | Except.ok u, Except.ok v =>
    if h : u = v then isTrue (congrArg Except.ok h)
    else isFalse fun he => h (Except.ok.inj he)

/-- Message of Python's `IndexError` for an out-of-range list index. -/
def IDXMSG : List Char := "list index out of range".toList

/-- Python `l[n]` on a list of strings: the value, or an `IndexError`. -/
def listGet (l : List (List Char)) (n : Nat) : Except PyExc (List Char) :=
  match l.get? n with
  | some a => Except.ok a
  | none => Except.error (PyExc.indexError IDXMSG)

/-- Numeric value of a list of decimal digit characters (empty list is 0). -/
def digitsVal (l : List Char) : Nat :=
  l.foldl (fun a c => 10 * a + (c.toNat - 48)) 0

/-- Are all characters decimal digits, with at least one digit present? -/
def allDigits (l : List Char) : Bool :=
  !l.isEmpty && l.all isDigitCh

/-- Numerator and power-of-ten denominator of an unsigned Python float
literal (`d+`, `d+.d*` or `.d+`); `none` if the text is not of this form. -/
def decParts (s : List Char) : Option (Nat × Nat) :=
  match splitPy ['.'] s with
  | [intp] => if allDigits intp then some (digitsVal intp, 1) else none
  | [intp, frac] =>
    if (!intp.isEmpty || !frac.isEmpty) && intp.all isDigitCh && frac.all isDigitCh then
      some (digitsVal intp * 10 ^ frac.length + digitsVal frac, 10 ^ frac.length)
    else none
  | _ => none

/-- Value of a signed Python decimal literal, exactly as a rational. -/
def parseDec : List Char → Option Rat
  | [] => none
  | c :: rest =>
    if c = '-' then (decParts rest).map fun p => mkRat (-(p.1 : Int)) p.2
    else if c = '+' then (decParts rest).map fun p => mkRat p.1 p.2
    else (decParts (c :: rest)).map fun p => mkRat p.1 p.2

/-- Model of Python `float(s)` on the decimal literals that can appear in a
results file: surrounding whitespace is stripped, then an optionally signed
decimal literal is read; anything else (for example the `N/A` sentinel)
raises `ValueError`.  (Exponent, infinity and NaN spellings never occur in
this file format and are not modelled.) -/
def pyFloat (s : List Char) : Except PyExc Rat :=
  match parseDec (pyStrip s) with
  | some q => Except.ok q
  | none =>
    Except.error (PyExc.valueError ("could not convert string to float: ".toList ++ s))

/-! Column labels (`constants.HEADERS`) and sentinels (`constants.NO_IMAGE`,
`constants.OUT_OF_BOUNDS`). -/

/-- Label `HEADERS.IMAGE_ID.value = "ID"`. -/
def LID : List Char := ['I', 'D']

/-- Label `HEADERS.IMAGE_NAME.value = "Image Name"`. -/
def LNAME : List Char := ['I', 'm', 'a', 'g', 'e', ' ', 'N', 'a', 'm', 'e']

/-- Label `HEADERS.RADIAL.value = "Radial"`. -/
def LRAD : List Char := ['R', 'a', 'd', 'i', 'a', 'l']

/-- Label `HEADERS.X_AXIS.value = "X-Axis"`. -/
def LX : List Char := ['X', '-', 'A', 'x', 'i', 's']

/-- Label `HEADERS.Y_AXIS.value = "Y-Axis"`. -/
def LY : List Char := ['Y', '-', 'A', 'x', 'i', 's']

/-- Sentinel `NO_IMAGE = "N/A"`. -/
def NAL : List Char := ['N', '/', 'A']

/-- Sentinel `OUT_OF_BOUNDS = 99999` (an `int` in the source). -/
def OUT_OF_BOUNDS : Int := 99999

/-- A parsed cell of a row: `format_line` keeps the three measurement cells
as strings for an all-`N/A` row and converts them with `float` otherwise. -/
inductive PyVal where
  | str : List Char → PyVal
  | num : Rat → PyVal
deriving DecidableEq

/-- A row produced by `format_line`: `[str(id), str(name), radial, x, y]`. -/
structure Row where
  id : List Char
  name : List Char
  radial : PyVal
  xaxis : PyVal
  yaxis : PyVal
deriving DecidableEq

/-- A measurement value as stored on an `Image` object before writing: the
numeric paths store 2-decimal formatted strings and `NO_IMAGE` stores the
string `"N/A"`, while `invalid_trial` stores the `int` 99999. -/
inductive Stored where
  | strv : List Char → Stored
  | intv : Int → Stored
deriving DecidableEq

/-- Python `str(...)` of a stored measurement value, as interpolated by the
f-string in `FileManager.write_results`. -/
def renderStored : Stored → List Char
  | Stored.strv s => s
  | Stored.intv z => intRepr z

/-- The fields of `image_editing_page.Image` that reach the results file
(`path` is only used to load the picture and is omitted). -/
structure Image where
  name : List Char
  index : Nat
  radial : Stored
  xaxis : Stored
  yaxis : Stored
deriving DecidableEq

/-! The parser: `DataReviewPage.format_line` and
`DataReviewPage.read_and_display_data`. -/

/-- Python `line.split(label)[1].split()[0]`: the whitespace token following
the first occurrence of `label`. -/
def tokenAfter (label line : List Char) : Except PyExc (List Char) := do
  let seg ← listGet (splitPy label line) 1
  listGet (wsTokens seg) 0

/-- Python
`line[line.find("Image Name")+len("Image Name") : line.rfind("Radial")].strip()`.
This expression never raises: `find`/`rfind` return `-1` when absent and
slicing tolerates any indices. -/
def extractName (line : List Char) : List Char :=
  pyStrip (pySlice line (pyFind LNAME line + LNAME.length) (pyRFind LRAD line))

/-- `DataReviewPage.format_line`: `Except.ok none` models the implicit
`None` return for lines not starting with `"ID"`; exceptions escape
unchanged (the `except IndexError as e: raise e` in the source re-raises). -/
def format_line (line : List Char) : Except PyExc (Option Row) :=
  if hasPfx LID line then do
    let id ← tokenAfter LID line
    let name := extractName line
    let radial ← tokenAfter LRAD line
    let x_axis ← tokenAfter LX line
    let y_axis ← tokenAfter LY line
    if radial = NAL ∧ x_axis = NAL ∧ y_axis = NAL then
      Except.ok (some ⟨id, name, PyVal.str radial, PyVal.str x_axis, PyVal.str y_axis⟩)
    else do
      let r ← pyFloat radial
      let x ← pyFloat x_axis
      let y ← pyFloat y_axis
      Except.ok (some ⟨id, name, PyVal.num r, PyVal.num x, PyVal.num y⟩)
  else Except.ok none

/-- The list comprehension in `read_and_display_data`:
`[format_line(line) for line in file if not line.strip().startswith("=")]`.
The comprehension evaluates left to right and the first exception aborts it. -/
def readData (lines : List (List Char)) : Except PyExc (List (Option Row)) :=
  (lines.filter fun l => !hasPfx ['='] (pyStrip l)).mapM format_line

/-- Label text set on the caught-`IndexError` path of
`read_and_display_data`. -/
def errLabel (m : List Char) : List Char :=
  "Encountered error: '".toList ++ m ++ "'. Results file may be malformed.".toList

/-- Label text set on the success path of `read_and_display_data`. -/
def loadedLabel (path : List Char) : List Char :=
  "Loaded data from: ".toList ++ path

/-- Does `pd.DataFrame(data, columns=[...five headers])` raise on the
comprehension's result?  A row list containing a bare `None` has row width
1 (scalar path) or a ragged object column (nested path) against the five
column names, so pandas raises before `self.data` is assigned; a list
whose entries are all five-field rows is accepted. -/
def dataFrameRaises (rows : List (Option Row)) : Bool :=
  rows.any fun r => r.isNone

/-- `DataReviewPage.read_and_display_data`, observed through the pair
(`self.data` after the call, label text): after the comprehension succeeds,
`self.data = pd.DataFrame(data, columns=...)` runs — it raises (uncaught:
the `except` clause names only `IndexError`) when the row list contains
`None`, and only otherwise are the table populated and the success label
set; an `IndexError` from the comprehension is caught and leaves
`self.data` at its previous value; any other exception (in particular
`ValueError` from `float`) propagates to the caller, also leaving
`self.data` unchanged. -/
def read_and_display_data (prev : Option (List (Option Row))) (path : List Char)
    (lines : List (List Char)) :
    Except PyExc (Option (List (Option Row)) × List Char) :=
  match readData lines with
  | Except.ok rows =>
    if dataFrameRaises rows then Except.error PyExc.pandasError
    else Except.ok (some rows, loadedLabel path)
  | Except.error (PyExc.indexError m) => Except.ok (prev, errLabel m)
  | Except.error e => Except.error e

/-- The value of `self.data` after `read_and_display_data` returns or
raises: it is assigned only when the comprehension and the `pd.DataFrame`
call on its result both succeed (the `DataFrame` call is the right-hand
side of the assignment, so its exception leaves `self.data` untouched). -/
def dataAfterRead (prev : Option (List (Option Row))) (lines : List (List Char)) :
    Option (List (Option Row)) :=
  match readData lines with
  | Except.ok rows => if dataFrameRaises rows then prev else some rows
  | Except.error _ => prev

/-! The writer: `FileManager.write_results`. -/

/-- Header line: `"=" + "".join(f"{h.value:<15}" for h in HEADERS) + "\n"`. -/
def headerLine : List Char :=
  '=' :: (ljust 15 LID ++ ljust 15 LNAME ++ ljust 15 LRAD ++ ljust 15 LX ++ ljust 15 LY)
    ++ ['\n']

/-- Separator line written after the header. -/
def sepLine : List Char := "===\n".toList

/-- The data line written for one image, following the f-string
`f"ID {index:<10} Image Name {name:<10} Radial {radial} \t\t X-Axis {xaxis}\t Y-Axis {yaxis}\n"`
with the value slots already rendered to text. -/
def mkLine (idS name r x y : List Char) : List Char :=
  LID ++ [' '] ++ ljust 10 idS ++ [' '] ++ LNAME ++ [' '] ++ ljust 10 name ++ [' ']
    ++ LRAD ++ [' '] ++ r ++ [' ', '\t', '\t', ' '] ++ LX ++ [' '] ++ x ++ ['\t', ' ']
    ++ LY ++ [' '] ++ y ++ ['\n']

/-- The data line for an `Image`. -/
def writeLine (img : Image) : List Char :=
  mkLine (natRepr img.index) img.name (renderStored img.radial)
    (renderStored img.xaxis) (renderStored img.yaxis)

/-- `FileManager.write_results`, observed through the line list of the
results file: `none` models a file that does not exist yet (fresh folder),
`some existing` a file with the given lines.  A missing file first receives
the header and separator lines; then one line per image is appended. -/
def write_results (existing : Option (List (List Char))) (images : List Image) :
    List (List Char) :=
  (match existing with
   | none => [headerLine, sepLine]
   | some c => c) ++ images.map writeLine

/-! The measurement engine: `calculations.py` and the computational part of
`EditPage.calculate_and_display`.  Python floats are modelled as reals. -/

/-- Message of the `ValueError` raised by `calculate_scaling_factor`. -/
def DEGEN_MSG : List Char :=
  "The same point was selected twice. Please select two different points.".toList

/-- `calculations.calculate_error`: Euclidean distance between two points,
scaled by `scaling_factor` (default 1 in the source). -/
noncomputable def calculate_error (point1 point2 : ℝ × ℝ) (scaling_factor : ℝ := 1) : ℝ :=
  Real.sqrt ((point2.1 - point1.1) ^ 2 + (point2.2 - point1.2) ^ 2) * scaling_factor

open Classical in
/-- `calculations.calculate_scaling_factor`: raises `ValueError` when the
pixel distance is zero, otherwise returns `real_world_distance / pixel_distance`. -/
noncomputable def calculate_scaling_factor (real_world_distance : ℝ) (point1 point2 : ℝ × ℝ) :
    Except (List Char) ℝ :=
  if calculate_error point1 point2 = 0 then Except.error DEGEN_MSG
  else Except.ok (real_world_distance / calculate_error point1 point2)

/-- The orientation remap of `EditPage.calculate_and_display` applied to the
raw deltas `(delta_x, delta_y) = (target - implement)`.  For an orientation
outside `{0,1,2,3}` the source prints a warning and assigns
`self.axis_orientation = 0` for subsequent trials, but leaves the deltas of
the current trial unremapped — hence the identity in the final case. -/
noncomputable def remapDelta (axis_orientation : Int) (dx dy : ℝ) : ℝ × ℝ :=
  if axis_orientation = 0 then (-dx, dy)
  else if axis_orientation = 1 then (-dy, -dx)
  else if axis_orientation = 2 then (dx, -dy)
  else if axis_orientation = 3 then (dy, dx)
  else (dx, dy)

/-- The numeric part of `EditPage.calculate_and_display`: given the target
point, the implement click `(x, y)`, the session scaling factor and the axis
orientation, produce the values `(radial, xaxis, yaxis)` before the
2-decimal formatting used for storage. -/
noncomputable def calculate_and_display (target implement : ℝ × ℝ) (scaling_factor : ℝ)
    (axis_orientation : Int) : ℝ × ℝ × ℝ :=
  let delta := remapDelta axis_orientation (target.1 - implement.1) (target.2 - implement.2)
  (calculate_error target implement scaling_factor,
   delta.1 * scaling_factor, delta.2 * scaling_factor)

/-- Round the fraction `n / d` (with `d > 0`) to the nearest integer, ties
to even: the rounding used by Python float formatting, applied here to the
exact rational value. -/
def roundHalfEven (n : Int) (d : Int) : Int :=
  let f := Int.fdiv n d
  let r := n - d * f
  if 2 * r < d then f
  else if d < 2 * r then f + 1
  else if 2 ∣ f then f else f + 1

/-- Two-digit zero-padded rendering of `m < 100`. -/
def pad2 (m : Nat) : List Char := if m < 10 then '0' :: natRepr m else natRepr m

/-- Model of the Python formatting `f"{v:.2f}"` on a rational value: round
half-even at the second decimal and render with exactly two decimals.  A
negative value keeps its sign even when it rounds to zero, as in Python's
`"-0.00"`. -/
def format2f (q : Rat) : List Char :=
  let n : Int := roundHalfEven (100 * q.num) (q.den : Int)
  (if q.num < 0 then ['-'] else []) ++ natRepr (n.natAbs / 100) ++ '.' :: pad2 (n.natAbs % 100)

/-- Characters that can occur in a measurement value slot of a data line:
decimal digits, `.` and `-` from 2-decimal formatting, and `N`, `/`, `A`
from the `"N/A"` sentinel. -/
def isValC (c : Char) : Bool :=
  isDigitCh c || c == '.' || c == '-' || c == 'N' || c == '/' || c == 'A'

/-- The conversion tail of `format_line` once the five fields have been
extracted: keep an all-`N/A` row as strings, otherwise apply `float` to the
three measurement tokens. -/
def convertRow (idS name r x y : List Char) : Except PyExc (Option Row) :=
  if r = NAL ∧ x = NAL ∧ y = NAL then
    Except.ok (some ⟨idS, name, PyVal.str r, PyVal.str x, PyVal.str y⟩)
  else do
    let a ← pyFloat r
    let b ← pyFloat x
    let c ← pyFloat y
    Except.ok (some ⟨idS, name, PyVal.num a, PyVal.num b, PyVal.num c⟩)

/-- The cell that `format_line` produces for a written measurement text:
its `float` value when the text parses as a decimal, the raw string
otherwise (which for a well-formed file is exactly the `N/A` case). -/
def expectedVal (t : List Char) : PyVal :=
  match parseDec (pyStrip t) with
  | some q => PyVal.num q
  | none => PyVal.str t

/-- The row that parsing the written line of `img` is expected to return. -/
def expectedRow (img : Image) : Row :=
  ⟨natRepr img.index, img.name, expectedVal (renderStored img.radial),
    expectedVal (renderStored img.xaxis), expectedVal (renderStored img.yaxis)⟩

/-- An image name that survives the round trip: no leading or trailing
whitespace (the parser strips the name field) and none of the three value
labels occurring inside it (the parser locates fields by label search). -/
def goodName (n : List Char) : Prop :=
  n.dropWhile (fun c => isWs c) = n ∧ n.reverse.dropWhile (fun c => isWs c) = n.reverse ∧
    occursB LRAD n = false ∧ occursB LX n = false ∧ occursB LY n = false

instance (n : List Char) : Decidable (goodName n) := by
  unfold goodName
  infer_instance

/-- Unsigned 2-decimal text: digits, a point, exactly two digits. -/
def is2decU (t : List Char) : Bool :=
  match t.reverse with
  | c2 :: c1 :: '.' :: rest => isDigitCh c2 && isDigitCh c1 && !rest.isEmpty &&
      rest.all isDigitCh
  | _ => false

/-- Signed 2-decimal text. -/
def is2decS (t : List Char) : Bool :=
  is2decU t ||
    (match t with
     | '-' :: u => is2decU u
     | _ => false)

/-- The out-of-bounds sentinel as written by the f-string: `str(99999)`. -/
def OOBS : List Char := ['9', '9', '9', '9', '9']

/-- Text admissible in the radial slot of a numeric row: non-negative
2-decimal text or the out-of-bounds sentinel. -/
def radTok (t : List Char) : Bool := is2decU t || t == OOBS

/-- Text admissible in the x/y slots of a numeric row: signed 2-decimal
text or the out-of-bounds sentinel. -/
def xyTok (t : List Char) : Bool := is2decS t || t == OOBS

/-- Measurement triple of a round-trippable record: all three fields are the
`N/A` sentinel together, or all three are float-parsable text. -/
def goodMeas (r x y : List Char) : Prop :=
  (r = NAL ∧ x = NAL ∧ y = NAL) ∨ (radTok r = true ∧ xyTok x = true ∧ xyTok y = true)

instance (r x y : List Char) : Decidable (goodMeas r x y) := by
  unfold goodMeas
  infer_instance

/-- A nonempty separator none of whose characters is whitespace, such as
the labels `"ID"`, `"Radial"`, `"X-Axis"` and `"Y-Axis"`. -/
def wsFree (sep : List Char) : Prop :=
  sep ≠ [] ∧ ∀ c ∈ sep, isWs c = false

instance (sep : List Char) : Decidable (wsFree sep) := by
  unfold wsFree
  infer_instance

/-- The separator has no nonempty proper border: no proper prefix is also a
suffix.  All five column labels satisfy this, which rules out occurrences of
a label that straddle a known occurrence. -/
def borderFree (sep : List Char) : Prop :=
  ∀ k < sep.length, 0 < k → sep.take k ≠ sep.drop (sep.length - k)

instance (sep : List Char) : Decidable (borderFree sep) := by
  unfold borderFree
  infer_instance

/-- No occurrence of the separator starts inside the block `p` when scanning
`p ++ q` (the occurrence may extend into `q`). -/
def cleanPre (sep : List Char) : List Char → List Char → Prop
  | [], _ => True
  | c :: p, q => hasPfx sep (c :: (p ++ q)) = false ∧ cleanPre sep p q

/-! Concrete records and lines used to evaluate the embedding on closed
instances. -/

/-- A trial record with numeric 2-decimal measurements, as stored by the
measured path of `calculate_and_display`. -/
def imgNum : Image :=
  ⟨"img1.png".toList, 0, Stored.strv "25.00".toList, Stored.strv "25.00".toList,
    Stored.strv "0.00".toList⟩

/-- A trial record stored by the `no_image` path: all three fields `"N/A"`. -/
def imgNA : Image :=
  ⟨"a.png".toList, 3, Stored.strv NAL, Stored.strv NAL, Stored.strv NAL⟩

/-- A trial record stored by the `invalid_trial` path: all three fields the
`int` 99999. -/
def imgOOB : Image :=
  ⟨"a.png".toList, 3, Stored.intv OUT_OF_BOUNDS, Stored.intv OUT_OF_BOUNDS,
    Stored.intv OUT_OF_BOUNDS⟩

/-- A record whose measurements mix the `"N/A"` sentinel with numeric text,
as a hand-edited or corrupted results line would contain. -/
def imgMixed : Image :=
  ⟨"a.png".toList, 0, Stored.strv NAL, Stored.strv "1.00".toList,
    Stored.strv "2.00".toList⟩

/-- A data line that starts with `"ID"` but has no `"Y-Axis"` label. -/
def lineNoY : List Char :=
  ("ID 0          Image Name a.png       Radial 1.00 \t\t X-Axis 2.00\n").toList

/-- A data line that starts with `"ID"` but has no `"Radial"` label. -/
def lineNoRad : List Char :=
  ("ID 0          Image Name a.png       X-Axis 2.00\t Y-Axis 1.00\n").toList

/-- A line that neither starts with `"ID"` nor, after stripping, with `"="`. -/
def lineJunk : List Char := "hello world\n".toList

/-- A concrete file path used for the loader's label text. -/
def pathP : List Char := "Results/Results_File.txt".toList

example :
    format_line (mkLine (natRepr 0) "img1.png".toList "25.00".toList "-3.20".toList
      "0.00".toList) =
    Except.ok (some ⟨"0".toList, "img1.png".toList, PyVal.num 25,
      PyVal.num (mkRat (-16) 5), PyVal.num 0⟩) := by decide

example :
    format_line (mkLine (natRepr 3) "a.png".toList NAL NAL NAL) =
    Except.ok (some ⟨"3".toList, "a.png".toList, PyVal.str NAL, PyVal.str NAL,
      PyVal.str NAL⟩) := by decide

example : format2f 25 = "25.00".toList := by decide

example : format2f 0 = "0.00".toList := by decide

/-! Basic facts about the embedded string primitives. -/

theorem hasPfx_iff {sep s : List Char} : hasPfx sep s = true ↔ ∃ t, s = sep ++ t := by
  induction sep generalizing s with
  | nil => simp [hasPfx]
  | cons a as ih =>
    cases s with
    | nil => simp [hasPfx]
    | cons b bs =>
      simp only [hasPfx, Bool.and_eq_true, beq_iff_eq, ih, List.cons_append]
      constructor
      · rintro ⟨rfl, t, rfl⟩
        exact ⟨t, rfl⟩
      · rintro ⟨t, h⟩
        cases h
        exact ⟨rfl, t, rfl⟩

theorem hasPfx_append_self (sep t : List Char) : hasPfx sep (sep ++ t) = true :=
  hasPfx_iff.mpr ⟨t, rfl⟩

theorem occursB_iff {sep : List Char} (hne : sep ≠ []) {s : List Char} :
    occursB sep s = true ↔ ∃ t₁ t₂, s = t₁ ++ sep ++ t₂ := by
  induction s with
  | nil =>
    constructor
    · intro h
      exact absurd h (by rw [occursB]; simp)
    · rintro ⟨t₁, t₂, h⟩
      cases sep with
      | nil => exact absurd rfl hne
      | cons a as => simp at h
  | cons c rest ih =>
    simp only [occursB, Bool.or_eq_true, ih, hasPfx_iff]
    constructor
    · rintro (⟨t, ht⟩ | ⟨t₁, t₂, ht⟩)
      · exact ⟨[], t, by simp [ht]⟩
      · exact ⟨c :: t₁, t₂, by simp [ht]⟩
    · rintro ⟨t₁, t₂, ht⟩
      cases t₁ with
      | nil => exact Or.inl ⟨t₂, by simpa using ht⟩
      | cons d t₁ =>
        simp only [List.cons_append, List.cons.injEq] at ht
        exact Or.inr ⟨t₁, t₂, ht.2⟩

theorem mem_of_occursB {sep s : List Char} (hne : sep ≠ [])
    (h : occursB sep s = true) : ∀ c ∈ sep, c ∈ s := by
  obtain ⟨t₁, t₂, rfl⟩ := (occursB_iff hne).mp h
  intro c hc
  simp [hc]

theorem occursB_eq_false_of_not_mem {sep s : List Char} {c : Char}
    (hc : c ∈ sep) (hs : c ∉ s) : occursB sep s = false := by
  by_contra h
  rw [Bool.not_eq_false] at h
  exact hs (mem_of_occursB (by rintro rfl; cases hc) h c hc)

theorem occursB_ws_cons {sep s : List Char} {w : Char} (hsep : wsFree sep)
    (hw : isWs w = true) (hs : occursB sep s = false) :
    occursB sep (w :: s) = false := by
  simp only [occursB, Bool.or_eq_false_iff]
  refine ⟨?_, hs⟩
  obtain ⟨hne, hchar⟩ := hsep
  cases sep with
  | nil => exact absurd rfl hne
  | cons a as =>
    simp only [hasPfx, Bool.and_eq_false_iff, beq_eq_false_iff_ne, ne_eq]
    left
    intro h
    rw [h] at hchar
    simp [hchar w (by simp)] at hw

theorem hasPfx_of_append_ws {sep u v : List Char} {w : Char}
    (hsep : ∀ c ∈ sep, isWs c = false) (hw : isWs w = true)
    (h : hasPfx sep (u ++ w :: v) = true) : hasPfx sep u = true := by
  obtain ⟨t, ht⟩ := hasPfx_iff.mp h
  rcases le_or_lt sep.length u.length with hle | hlt
  · have hta : u.take sep.length = sep := by
      have h2 := congrArg (List.take sep.length) ht
      rwa [List.take_append_of_le_length hle, List.take_left] at h2
    exact hasPfx_iff.mpr ⟨u.drop sep.length, by
      conv_lhs => rw [← List.take_append_drop sep.length u]
      rw [hta]⟩
  · exfalso
    have h2 := congrArg (List.take sep.length) ht
    rw [List.take_left, List.take_append_eq_append_take,
      List.take_of_length_le (le_of_lt hlt)] at h2
    have hwmem : w ∈ sep := by
      rw [← h2]
      have hpos : 0 < sep.length - u.length := Nat.sub_pos_of_lt hlt
      cases hk : sep.length - u.length with
      | zero => omega
      | succ k => simp [List.take_succ_cons]
    simp [hsep w hwmem] at hw

theorem occursB_append_ws {sep u v : List Char} {w : Char} (hsep : wsFree sep)
    (hw : isWs w = true) (hu : occursB sep u = false) (hv : occursB sep v = false) :
    occursB sep (u ++ w :: v) = false := by
  induction u with
  | nil => exact occursB_ws_cons hsep hw hv
  | cons c u ih =>
    simp only [occursB, Bool.or_eq_false_iff] at hu ⊢
    refine ⟨?_, ih hu.2⟩
    by_contra h
    rw [Bool.not_eq_false] at h
    have := hasPfx_of_append_ws hsep.2 hw (u := c :: u) (by simpa using h)
    simp [this] at hu

/-- A nonempty clean block followed by a fresh occurrence of the separator
admits no occurrence starting inside the block: any such occurrence would
force a nonempty proper border of `sep`. -/
theorem hasPfx_straddle {sep a b : List Char} (hbf : borderFree sep)
    (ha : occursB sep a = false) (hne : a ≠ []) :
    hasPfx sep (a ++ sep ++ b) = false := by
  by_contra h
  rw [Bool.not_eq_false] at h
  obtain ⟨t, ht⟩ := hasPfx_iff.mp h
  rcases le_or_lt sep.length a.length with hle | hlt
  · have hta : a.take sep.length = sep := by
      have h2 := congrArg (List.take sep.length) ht
      rwa [List.append_assoc, List.take_append_of_le_length hle, List.take_left] at h2
    have hpfx : hasPfx sep a = true := hasPfx_iff.mpr ⟨a.drop sep.length, by
      conv_lhs => rw [← List.take_append_drop sep.length a]
      rw [hta]⟩
    cases a with
    | nil => exact hne rfl
    | cons c rest => simp [occursB, hpfx] at ha
  · have h2 := congrArg (List.take sep.length) ht
    rw [List.append_assoc, List.take_left, List.take_append_eq_append_take,
      List.take_of_length_le (le_of_lt hlt),
      List.take_append_of_le_length (by omega)] at h2
    -- h2 : a ++ sep.take (sep.length - a.length) = sep
    have hk1 : 0 < sep.length - a.length := Nat.sub_pos_of_lt hlt
    have hk2 : sep.length - a.length < sep.length := by
      have : 0 < a.length := List.length_pos.mpr hne
      omega
    have h3 := congrArg (List.drop a.length) h2
    rw [List.drop_left] at h3
    refine hbf (sep.length - a.length) hk2 hk1 ?_
    have hidx : sep.length - (sep.length - a.length) = a.length := by omega
    rw [hidx]
    exact h3

theorem splitPyF_fuel (sep : List Char) :
    ∀ f g s, s.length ≤ f → s.length ≤ g → splitPyF sep f s = splitPyF sep g s := by
  intro f
  induction f with
  | zero =>
    intro g s hf hg
    have : s = [] := List.length_eq_zero.mp (Nat.le_zero.mp hf)
    subst this
    cases g <;> rfl
  | succ f ih =>
    intro g s hf hg
    cases s with
    | nil => cases g <;> rfl
    | cons c rest =>
      cases g with
      | zero => simp at hg
      | succ g =>
        simp only [splitPyF]
        by_cases h : hasPfx sep (c :: rest) = true
        · rw [h]
          simp only [if_true]
          have hlen : (rest.drop (sep.length - 1)).length ≤ rest.length :=
            by simp [List.length_drop]
          rw [ih g _ (by simp at hf; omega) (by simp at hg; omega)]
        · rw [Bool.not_eq_true] at h
          rw [h]
          simp only [Bool.false_eq_true, if_false]
          rw [ih g rest (by simp at hf; omega) (by simp at hg; omega)]

theorem splitPy_nil (sep : List Char) : splitPy sep [] = [[]] := rfl

theorem splitPy_cons (sep : List Char) (c : Char) (rest : List Char) :
    splitPy sep (c :: rest) =
      if hasPfx sep (c :: rest) then [] :: splitPy sep (rest.drop (sep.length - 1))
      else (splitPy sep rest).modifyHead fun h => c :: h := by
  unfold splitPy
  simp only [List.length_cons, splitPyF]
  by_cases h : hasPfx sep (c :: rest) = true
  · rw [h]
    simp only [if_true]
    congr 1
    exact splitPyF_fuel sep rest.length _ _ (by simp [List.length_drop]) le_rfl
  · rw [Bool.not_eq_true] at h
    rw [h]
    simp

theorem splitPy_ne_nil (sep s : List Char) : splitPy sep s ≠ [] := by
  induction s with
  | nil => simp [splitPy_nil]
  | cons c rest ih =>
    rw [splitPy_cons]
    by_cases h : hasPfx sep (c :: rest) = true
    · simp [h]
    · rw [Bool.not_eq_true] at h
      simp only [h, Bool.false_eq_true, if_false]
      cases hs : splitPy sep rest with
      | nil => exact absurd hs ih
      | cons a l => simp

/-- Python `split` on a string with no occurrence of the separator returns
the whole string as a single chunk. -/
theorem splitPy_no_occurrence {sep s : List Char} (h : occursB sep s = false) :
    splitPy sep s = [s] := by
  induction s with
  | nil => exact splitPy_nil sep
  | cons c rest ih =>
    simp only [occursB, Bool.or_eq_false_iff] at h
    rw [splitPy_cons, h.1]
    simp [ih h.2]

/-- Python `split` cuts at the first fresh occurrence of the separator after
a clean block: `(a ++ sep ++ b).split(sep) = [a] ++ b.split(sep)`. -/
theorem splitPy_clean_append {sep a b : List Char} (hne : sep ≠ [])
    (hbf : borderFree sep) (ha : occursB sep a = false) :
    splitPy sep (a ++ sep ++ b) = a :: splitPy sep b := by
  induction a with
  | nil =>
    cases sep with
    | nil => exact absurd rfl hne
    | cons s0 sep' =>
      have hp : hasPfx (s0 :: sep') (s0 :: (sep' ++ b)) = true := by
        simpa using hasPfx_append_self (s0 :: sep') b
      simp only [List.nil_append, List.cons_append]
      rw [splitPy_cons, hp]
      simp only [if_true]
      congr 1
      have hd : (sep' ++ b).drop ((s0 :: sep').length - 1) = b := by
        simp only [List.length_cons, Nat.add_sub_cancel]
        exact List.drop_left sep' b
      rw [hd]
  | cons c a ih =>
    simp only [occursB, Bool.or_eq_false_iff] at ha
    have hstr : hasPfx sep ((c :: a) ++ sep ++ b) = false :=
      hasPfx_straddle hbf (by simp [occursB, ha.1, ha.2]) (by simp)
    simp only [List.cons_append] at hstr ⊢
    rw [splitPy_cons, hstr]
    simp only [Bool.false_eq_true, if_false]
    rw [ih ha.2]
    simp

/-- Scanning `p ++ q` with no occurrence starting in `p` yields a first
chunk that extends `p`. -/
theorem headSplit_of_cleanPre {sep p q : List Char} (h : cleanPre sep p q) :
    ∃ t, (splitPy sep (p ++ q)).head? = some (p ++ t) := by
  induction p with
  | nil =>
    cases hs : splitPy sep q with
    | nil => exact absurd hs (splitPy_ne_nil sep q)
    | cons a l => exact ⟨a, by simp [hs]⟩
  | cons c p ih =>
    obtain ⟨h1, h2⟩ := h
    obtain ⟨t, ht⟩ := ih h2
    refine ⟨t, ?_⟩
    simp only [List.cons_append]
    rw [splitPy_cons, h1]
    simp only [Bool.false_eq_true, if_false]
    cases hs : splitPy sep (p ++ q) with
    | nil => exact absurd hs (splitPy_ne_nil sep _)
    | cons a l =>
      rw [hs] at ht
      simp only [List.head?_cons, Option.some.injEq] at ht
      simp [ht]

/-- A block that is occurrence-free and ends in a whitespace character is
clean for a whitespace-free separator, whatever follows it. -/
theorem cleanPre_of_wsLast {sep p q : List Char} (hsep : wsFree sep)
    (hocc : occursB sep p = false)
    (hlast : p = [] ∨ ∃ p₀ w, p = p₀ ++ [w] ∧ isWs w = true) :
    cleanPre sep p q := by
  induction p with
  | nil => trivial
  | cons c p ih =>
    simp only [occursB, Bool.or_eq_false_iff] at hocc
    rcases hlast with h | ⟨p₀, w, hp, hw⟩
    · exact absurd h (by simp)
    refine ⟨?_, ?_⟩
    · by_contra h
      rw [Bool.not_eq_false] at h
      obtain ⟨t, ht⟩ := hasPfx_iff.mp h
      rcases le_or_lt sep.length (c :: p).length with hle | hlt
      · have hta : (c :: p).take sep.length = sep := by
          have h2 := congrArg (List.take sep.length) ht
          rwa [← List.cons_append, List.take_append_of_le_length hle, List.take_left] at h2
        have hpfx : hasPfx sep (c :: p) = true := hasPfx_iff.mpr ⟨(c :: p).drop sep.length, by
          conv_lhs => rw [← List.take_append_drop sep.length (c :: p)]
          rw [hta]⟩
        simp [hpfx] at hocc
      · have h2 := congrArg (List.take sep.length) ht
        rw [← List.cons_append, List.take_left, List.take_append_eq_append_take,
          List.take_of_length_le (le_of_lt hlt)] at h2
        -- h2 : (c :: p) ++ q.take (sep.length - (c :: p).length) = sep
        have hwmem : w ∈ sep := by
          rw [← h2, hp]
          simp
        simp [hsep.2 w hwmem] at hw
    · refine ih hocc.2 ?_
      cases p₀ with
      | nil =>
        left
        simpa using congrArg List.tail hp
      | cons d p₀ =>
        right
        refine ⟨p₀, w, ?_, hw⟩
        simpa using congrArg List.tail hp

theorem findPosAux_clean_append {sep pre post : List Char} (hne : sep ≠ [])
    (hbf : borderFree sep) (hpre : occursB sep pre = false) :
    findPosAux sep (pre ++ sep ++ post) = some pre.length := by
  induction pre with
  | nil =>
    cases sep with
    | nil => exact absurd rfl hne
    | cons s0 sep' =>
      have hp : hasPfx (s0 :: sep') (s0 :: (sep' ++ post)) = true := by
        simpa using hasPfx_append_self (s0 :: sep') post
      simp [findPosAux, hp]
  | cons c pre ih =>
    simp only [occursB, Bool.or_eq_false_iff] at hpre
    have hstr : hasPfx sep ((c :: pre) ++ sep ++ post) = false :=
      hasPfx_straddle hbf (by simp [occursB, hpre.1, hpre.2]) (by simp)
    simp only [List.cons_append] at hstr ⊢
    simp only [findPosAux, hstr, Bool.false_eq_true, if_false]
    rw [ih hpre.2]
    simp

/-- No occurrence of a border-free separator can start strictly inside one
of its own occurrences, whatever follows. -/
theorem occursB_drop_append {sep post : List Char} (hbf : borderFree sep)
    (hpost : occursB sep post = false) :
    ∀ k j, sep.length - j ≤ k → 0 < j → occursB sep (sep.drop j ++ post) = false := by
  intro k
  induction k with
  | zero =>
    intro j hk hj
    have : sep.length ≤ j := by omega
    rw [List.drop_of_length_le this]
    simpa using hpost
  | succ k ih =>
    intro j hk hj
    rcases le_or_lt sep.length j with hle | hlt
    · rw [List.drop_of_length_le hle]
      simpa using hpost
    · have hdj : sep.drop j = sep[j] :: sep.drop (j + 1) := List.drop_eq_getElem_cons hlt
      rw [hdj]
      simp only [List.cons_append, occursB, Bool.or_eq_false_iff]
      constructor
      · by_contra h
        rw [Bool.not_eq_false] at h
        have h' : hasPfx sep (sep.drop j ++ post) = true := by
          rw [hdj, List.cons_append]
          exact h
        obtain ⟨t, ht⟩ := hasPfx_iff.mp h'
        have hlen : (sep.drop j).length = sep.length - j := by simp
        have hjlen : (sep.drop j).length < sep.length := by omega
        have h2 := congrArg (List.take sep.length) ht
        rw [List.take_left, List.take_append_eq_append_take,
          List.take_of_length_le (le_of_lt hjlen)] at h2
        -- h2 : sep.drop j ++ post.take (sep.length - (sep.drop j).length) = sep
        have h3 := congrArg (List.take (sep.length - j)) h2
        rw [List.take_append_of_le_length (by omega), List.take_of_length_le (by omega)] at h3
        -- h3 : sep.drop j = sep.take (sep.length - j)
        refine hbf (sep.length - j) (by omega) (by omega) ?_
        have hidx : sep.length - (sep.length - j) = j := by omega
        rw [hidx]
        exact h3.symm
      · have : sep.drop (j + 1) ++ post = sep.drop (j + 1) ++ post := rfl
        exact ih (j + 1) (by omega) (by omega)

theorem rfindPosAux_none_iff {sep : List Char} {s : List Char} :
    rfindPosAux sep s = none ↔ occursB sep s = false := by
  induction s with
  | nil => simp [rfindPosAux, occursB]
  | cons c rest ih =>
    simp only [rfindPosAux, occursB]
    cases hr : rfindPosAux sep rest with
    | some n =>
      have hocc : occursB sep rest = true := by
        by_contra hc
        rw [Bool.not_eq_true] at hc
        rw [ih.mpr hc] at hr
        cases hr
      simp [hocc]
    | none =>
      have hocc := ih.mp hr
      by_cases h : hasPfx sep (c :: rest) = true
      · simp [h]
      · rw [Bool.not_eq_true] at h
        simp [h, hocc]

theorem rfindPosAux_clean_append {sep pre post : List Char} (hne : sep ≠ [])
    (hbf : borderFree sep) (hpost : occursB sep post = false) :
    rfindPosAux sep (pre ++ sep ++ post) = some pre.length := by
  induction pre with
  | nil =>
    cases sep with
    | nil => exact absurd rfl hne
    | cons s0 sep' =>
      have hrest : rfindPosAux (s0 :: sep') (sep' ++ post) = none := by
        rw [rfindPosAux_none_iff]
        have := occursB_drop_append hbf hpost (s0 :: sep').length 1 (by omega) (by omega)
        simpa using this
      have hp : hasPfx (s0 :: sep') (s0 :: (sep' ++ post)) = true := by
        simpa using hasPfx_append_self (s0 :: sep') post
      simp [rfindPosAux, hrest, hp]
  | cons c pre ih =>
    simp only [List.cons_append]
    rw [rfindPosAux, ih]
    simp

theorem takeWhile_all_append {p : Char → Bool} {l : List Char} {w : Char} {z : List Char}
    (hl : ∀ a ∈ l, p a = true) (hw : p w = false) :
    (l ++ w :: z).takeWhile p = l := by
  induction l with
  | nil => simp [List.takeWhile_cons, hw]
  | cons a l ih =>
    have ha := hl a (by simp)
    simp only [List.cons_append, List.takeWhile_cons, ha, if_true]
    rw [ih fun b hb => hl b (by simp [hb])]

theorem dropWhile_all_append {p : Char → Bool} {l : List Char} {w : Char} {z : List Char}
    (hl : ∀ a ∈ l, p a = true) (hw : p w = false) :
    (l ++ w :: z).dropWhile p = w :: z := by
  induction l with
  | nil => simp [List.dropWhile_cons, hw]
  | cons a l ih =>
    have ha := hl a (by simp)
    simp only [List.cons_append, List.dropWhile_cons, ha, if_true]
    exact ih fun b hb => hl b (by simp [hb])

theorem wsTokF_fuel : ∀ f g s, s.length ≤ f → s.length ≤ g → wsTokF f s = wsTokF g s := by
  intro f
  induction f with
  | zero =>
    intro g s hf hg
    have : s = [] := List.length_eq_zero.mp (Nat.le_zero.mp hf)
    subst this
    cases g <;> rfl
  | succ f ih =>
    intro g s hf hg
    cases s with
    | nil => cases g <;> rfl
    | cons c rest =>
      cases g with
      | zero => simp at hg
      | succ g =>
        simp only [wsTokF]
        by_cases h : isWs c = true
        · rw [h]
          simp only [if_true]
          exact ih g rest (by simp at hf; omega) (by simp at hg; omega)
        · rw [Bool.not_eq_true] at h
          rw [h]
          simp only [Bool.false_eq_true, if_false]
          have hlen : (rest.dropWhile fun d => !isWs d).length ≤ rest.length :=
            (List.dropWhile_sublist _).length_le
          rw [ih g _ (by simp at hf; omega) (by simp at hg; omega)]

theorem wsTokens_cons (c : Char) (rest : List Char) :
    wsTokens (c :: rest) =
      if isWs c then wsTokens rest
      else (c :: rest.takeWhile fun d => !isWs d) ::
        wsTokens (rest.dropWhile fun d => !isWs d) := by
  unfold wsTokens
  simp only [List.length_cons, wsTokF]
  by_cases h : isWs c = true
  · rw [h]
    simp only [if_true]
  · rw [Bool.not_eq_true] at h
    rw [h]
    simp only [Bool.false_eq_true, if_false]
    congr 1
    exact wsTokF_fuel rest.length _ _ ((List.dropWhile_sublist _).length_le) le_rfl

theorem wsTokens_ws_cons {c : Char} (h : isWs c = true) (s : List Char) :
    wsTokens (c :: s) = wsTokens s := by
  rw [wsTokens_cons, h]
  simp

/-- The first whitespace token of `tok ++ w :: z` is `tok` itself, for a
nonempty all-non-whitespace `tok` and whitespace `w`; the tail `z` is
irrelevant. -/
theorem wsTokens_token {tok : List Char} {w : Char} {z : List Char}
    (hne : tok ≠ []) (htok : ∀ c ∈ tok, isWs c = false) (hw : isWs w = true) :
    wsTokens (tok ++ w :: z) = tok :: wsTokens (w :: z) := by
  cases tok with
  | nil => exact absurd rfl hne
  | cons c tok' =>
    have hc := htok c (by simp)
    simp only [List.cons_append]
    rw [wsTokens_cons, hc]
    simp only [Bool.false_eq_true, if_false]
    have ht : (tok' ++ w :: z).takeWhile (fun d => !isWs d) = tok' :=
      takeWhile_all_append (fun a ha => by simp [htok a (by simp [ha])]) (by simp [hw])
    have hd : (tok' ++ w :: z).dropWhile (fun d => !isWs d) = w :: z :=
      dropWhile_all_append (fun a ha => by simp [htok a (by simp [ha])]) (by simp [hw])
    rw [ht, hd]

theorem listGet_cons_zero (a : List Char) (l : List (List Char)) :
    listGet (a :: l) 0 = Except.ok a := rfl

theorem listGet_cons_succ (a : List Char) (l : List (List Char)) (n : Nat) :
    listGet (a :: l) (n + 1) = listGet l n := rfl

/-- Python `strip` removes surrounding runs of spaces and nothing else when
the kernel string has no leading or trailing whitespace. -/
theorem pyStrip_spaces {name : List Char}
    (h1 : name.dropWhile (fun c => isWs c) = name)
    (h2 : name.reverse.dropWhile (fun c => isWs c) = name.reverse)
    (j k : Nat) :
    pyStrip (List.replicate j ' ' ++ name ++ List.replicate k ' ') = name := by
  have hrepl : ∀ (m : Nat) (s : List Char),
      (List.replicate m ' ' ++ s).dropWhile (fun c => isWs c) =
        s.dropWhile (fun c => isWs c) := by
    intro m
    induction m with
    | zero => simp
    | succ m ih =>
      intro s
      simp only [List.replicate_succ, List.cons_append, List.dropWhile_cons]
      have : isWs ' ' = true := by decide
      rw [this]
      simp only [if_true]
      exact ih s
  unfold pyStrip pyLStrip
  rw [List.append_assoc, hrepl]
  cases hn : name with
  | nil =>
    have hk : (List.replicate k ' ').dropWhile (fun c => isWs c) = [] := by
      have := hrepl k ([] : List Char)
      simpa using this
    simp [hk]
  | cons c name' =>
    have hc : isWs c = false := by
      by_contra hcc
      rw [Bool.not_eq_false] at hcc
      rw [hn, List.dropWhile_cons, hcc] at h1
      simp only [if_true] at h1
      have hlen := congrArg List.length h1
      have hle := (List.dropWhile_sublist (l := name') (fun c => isWs c)).length_le
      simp at hlen
      omega
    rw [← hn]
    have hstep : (name ++ List.replicate k ' ').dropWhile (fun c => isWs c) =
        name ++ List.replicate k ' ' := by
      rw [hn, List.cons_append, List.dropWhile_cons, hc]
      simp
    rw [hstep, List.reverse_append, List.reverse_replicate, hrepl, h2, List.reverse_reverse]

theorem isDigitCh_digitCh (d : Nat) : isDigitCh (digitCh d) = true := by
  unfold digitCh
  repeat' split
  all_goals decide

theorem natReprAux_digits : ∀ fuel n c, c ∈ natReprAux fuel n → isDigitCh c = true := by
  intro fuel
  induction fuel with
  | zero => intro n c h; simp [natReprAux] at h
  | succ fuel ih =>
    intro n c h
    cases n with
    | zero => simp [natReprAux] at h
    | succ m =>
      simp only [natReprAux, List.mem_append, List.mem_singleton] at h
      rcases h with h | h
      · exact ih _ c h
      · rw [h]
        exact isDigitCh_digitCh _

theorem natRepr_digits {n : Nat} {c : Char} (h : c ∈ natRepr n) : isDigitCh c = true := by
  unfold natRepr at h
  by_cases hn : n = 0
  · rw [if_pos hn] at h
    simp at h
    rw [h]
    decide
  · rw [if_neg hn] at h
    exact natReprAux_digits _ _ _ h

theorem natRepr_ne_nil (n : Nat) : natRepr n ≠ [] := by
  unfold natRepr
  by_cases hn : n = 0
  · simp [hn]
  · rw [if_neg hn]
    cases n with
    | zero => exact absurd rfl hn
    | succ m => simp [natReprAux]

theorem isWs_of_digit {c : Char} (h : isDigitCh c = true) : isWs c = false := by
  by_contra hw
  rw [Bool.not_eq_false] at hw
  unfold isWs at hw
  simp only [Bool.or_eq_true, beq_iff_eq] at hw
  rcases hw with ((((rfl | rfl) | rfl) | rfl) | rfl) | rfl <;> exact absurd h (by decide)

theorem ne_of_digit {c d : Char} (h : isDigitCh c = true) (hd : isDigitCh d = false) :
    c ≠ d := by
  rintro rfl
  rw [h] at hd
  cases hd

/-- The slice `s[i:j]` for in-range non-negative indices of a three-part
concatenation is the middle part. -/
theorem pySlice_middle (u v w : List Char) :
    pySlice (u ++ v ++ w) (u.length : Int) ((u.length : Int) + (v.length : Int)) = v := by
  unfold pySlice
  have hlen : ((u ++ v ++ w).length : Int) = (u.length : Int) + v.length + w.length := by
    push_cast [List.length_append]
    ring
  have h1 : ¬ ((u.length : Int) < 0) := by omega
  have h2 : ¬ ((u.length : Int) + (v.length : Int) < 0) := by omega
  rw [if_neg h1, if_neg h2, hlen]
  have hmin1 : min ((u.length : Int) + v.length + w.length) (u.length : Int) =
      (u.length : Int) := by omega
  have hmin2 : min ((u.length : Int) + v.length + w.length)
      ((u.length : Int) + (v.length : Int)) = (u.length : Int) + v.length := by omega
  rw [hmin1, hmin2]
  have ht1 : ((u.length : Int) + (v.length : Int)).toNat = u.length + v.length := by omega
  have ht2 : ((u.length : Int)).toNat = u.length := by omega
  rw [ht1, ht2]
  rw [List.take_append_eq_append_take, List.take_of_length_le (by simp)]
  have hz : u.length + v.length - (u ++ v).length = 0 := by simp
  rw [hz]
  simp only [List.take_zero, List.append_nil]
  exact List.drop_left u v

/-- A line whose first character is not whitespace and not `=` survives the
`line.strip().startswith("=")` filter of `read_and_display_data`. -/
theorem filter_keeps {c : Char} (t : List Char) (hws : isWs c = false) (hc : c ≠ '=') :
    hasPfx ['='] (pyStrip (c :: t)) = false := by
  unfold pyStrip pyLStrip
  rw [List.dropWhile_cons, hws]
  simp only [Bool.false_eq_true, if_false]
  have hrev : (c :: t).reverse = t.reverse ++ [c] := by simp
  rw [hrev, List.dropWhile_append]
  by_cases he : (t.reverse.dropWhile fun c => isWs c).isEmpty = true
  · rw [if_pos he]
    rw [List.dropWhile_cons, hws]
    simp [hasPfx, hc.symm]
  · rw [if_neg (by simpa using he)]
    rw [List.reverse_append]
    cases hd : t.reverse.dropWhile fun c => isWs c with
    | nil => rw [hd] at he; simp at he
    | cons a l =>
      simp only [List.reverse_cons]
      simp [hasPfx, hc.symm]

theorem not_mem_of_all {p : Char → Bool} {c : Char} {t : List Char}
    (h : ∀ d ∈ t, p d = true) (hc : p c = false) : c ∉ t := by
  intro hm
  rw [h c hm] at hc
  cases hc

theorem isWs_of_valC {c : Char} (h : isValC c = true) : isWs c = false := by
  unfold isValC at h
  simp only [Bool.or_eq_true, beq_iff_eq] at h
  rcases h with ((((hd | rfl) | rfl) | rfl) | rfl) | rfl
  · exact isWs_of_digit hd
  all_goals decide

theorem occursB_replicate_space {sep : List Char} (hsep : wsFree sep) (k : Nat) :
    occursB sep (List.replicate k ' ') = false := by
  obtain ⟨hne, hchar⟩ := hsep
  cases sep with
  | nil => exact absurd rfl hne
  | cons s0 sep' =>
    refine occursB_eq_false_of_not_mem (c := s0) (by simp) ?_
    intro hm
    rw [List.eq_of_mem_replicate hm] at hchar
    exact absurd (hchar ' ' (by simp)) (by decide)

theorem occursB_pad {sep s : List Char} (hsep : wsFree sep)
    (hs : occursB sep s = false) (k : Nat) :
    occursB sep (s ++ List.replicate k ' ') = false := by
  cases k with
  | zero => simpa using hs
  | succ k =>
    rw [List.replicate_succ]
    exact occursB_append_ws hsep (by decide) hs (occursB_replicate_space hsep k)

/-- The occurrence-freeness of a whole data-line segment around the name
slot: character reasoning handles the fixed parts `A` and `B`, and the name
is insulated from them by mandatory spaces. -/
theorem occursB_around_name {sep A B name : List Char} {k : Nat} (hsep : wsFree sep)
    (hA : occursB sep A = false) (hB : occursB sep B = false)
    (hname : occursB sep name = false) :
    occursB sep (A ++ ' ' :: ((name ++ List.replicate k ' ') ++ ' ' :: B)) = false := by
  refine occursB_append_ws hsep (by decide) hA ?_
  exact occursB_append_ws hsep (by decide) (occursB_pad hsep hname k) hB

theorem replicate_space_cons (k : Nat) (z : List Char) :
    ∃ z', List.replicate k ' ' ++ ' ' :: z = ' ' :: z' := by
  cases k with
  | zero => exact ⟨z, by simp⟩
  | succ k => exact ⟨List.replicate k ' ' ++ ' ' :: z, by simp [List.replicate_succ]⟩

/-- The common shape of the four `line.split(label)[1].split()[0]` token
extractions on a written data line: the text decomposes as
`pre ++ label ++ (p ++ q)` with no occurrence of the label in `pre`, none
starting inside `p`, and `p` of the form `' ' :: tok ++ ws ++ ...`. -/
theorem tokenAfter_clean {sep pre p q tok : List Char} {w : Char}
    (hne : sep ≠ []) (hbf : borderFree sep)
    (hpre : occursB sep pre = false)
    (hp : cleanPre sep p q)
    (hshape : ∀ t : List Char, ∃ z, p ++ t = ' ' :: (tok ++ w :: z))
    (hw : isWs w = true) (htok1 : tok ≠ []) (htok2 : ∀ c ∈ tok, isWs c = false) :
    tokenAfter sep (pre ++ sep ++ (p ++ q)) = Except.ok tok := by
  have hsplit : splitPy sep (pre ++ sep ++ (p ++ q)) = pre :: splitPy sep (p ++ q) :=
    splitPy_clean_append hne hbf hpre
  obtain ⟨t, ht⟩ := headSplit_of_cleanPre hp
  obtain ⟨z, hz⟩ := hshape t
  cases hs : splitPy sep (p ++ q) with
  | nil => exact absurd hs (splitPy_ne_nil sep _)
  | cons a rest =>
    rw [hs] at ht
    simp only [List.head?_cons, Option.some.injEq] at ht
    have ha : a = ' ' :: (tok ++ w :: z) := by rw [ht]; exact hz
    unfold tokenAfter
    rw [hsplit, hs, listGet_cons_succ, listGet_cons_zero]
    show listGet (wsTokens a) 0 = Except.ok tok
    rw [ha, wsTokens_ws_cons (by decide), wsTokens_token htok1 htok2 hw, listGet_cons_zero]

/-- The name extraction on a written data line: `find` locates the label
`"Image Name"`, `rfind` locates the label `"Radial"`, and the padded slot in
between strips back to the original name. -/
theorem extractName_clean (A0 name W' : List Char) (k : Nat)
    (hA0 : occursB LNAME A0 = false)
    (hW : occursB LRAD W' = false)
    (hn1 : name.dropWhile (fun c => isWs c) = name)
    (hn2 : name.reverse.dropWhile (fun c => isWs c) = name.reverse) :
    extractName
      (A0 ++ LNAME ++ ([' '] ++ (name ++ List.replicate k ' ') ++ [' ']) ++ LRAD ++ W')
      = name := by
  set V : List Char := [' '] ++ (name ++ List.replicate k ' ') ++ [' '] with hV
  have hfind : findPosAux LNAME (A0 ++ LNAME ++ V ++ LRAD ++ W') = some A0.length := by
    have e1 : A0 ++ LNAME ++ V ++ LRAD ++ W' = A0 ++ LNAME ++ (V ++ LRAD ++ W') := by
      simp [List.append_assoc]
    rw [e1]
    exact findPosAux_clean_append (by decide) (by decide) hA0
  have hrfind : rfindPosAux LRAD (A0 ++ LNAME ++ V ++ LRAD ++ W') =
      some (A0 ++ LNAME ++ V).length :=
    rfindPosAux_clean_append (by decide) (by decide) hW
  have hf2 : pyFind LNAME (A0 ++ LNAME ++ V ++ LRAD ++ W') = (A0.length : Int) := by
    unfold pyFind
    rw [hfind]
  have hr2 : pyRFind LRAD (A0 ++ LNAME ++ V ++ LRAD ++ W') =
      ((A0 ++ LNAME ++ V).length : Int) := by
    unfold pyRFind
    rw [hrfind]
  unfold extractName
  rw [hf2, hr2]
  have hiz : (A0.length : Int) + (LNAME.length : Int) = ((A0 ++ LNAME).length : Int) := by
    push_cast [List.length_append]
    ring
  have hjz : ((A0 ++ LNAME ++ V).length : Int) =
      ((A0 ++ LNAME).length : Int) + (V.length : Int) := by
    push_cast [List.length_append]
    ring
  have e2 : A0 ++ LNAME ++ V ++ LRAD ++ W' = (A0 ++ LNAME) ++ V ++ (LRAD ++ W') := by
    simp [List.append_assoc]
  rw [hiz, hjz, e2, pySlice_middle]
  have hVr : V = List.replicate 1 ' ' ++ name ++ List.replicate (k + 1) ' ' := by
    rw [hV]
    simp [List.replicate_succ']
  rw [hVr]
  exact pyStrip_spaces hn1 hn2 1 (k + 1)

theorem not_mem_append2 {c : Char} {u v : List Char} (hu : c ∉ u) (hv : c ∉ v) :
    c ∉ u ++ v := by
  intro h
  rcases List.mem_append.mp h with h | h
  · exact hu h
  · exact hv h

theorem not_mem_ljust {c : Char} {s : List Char} (hs : c ∉ s) (hc : c ≠ ' ') (w : Nat) :
    c ∉ ljust w s := by
  unfold ljust
  refine not_mem_append2 hs ?_
  intro h
  exact hc (List.eq_of_mem_replicate h)

/-- Membership in a concatenation of segments, segmentwise. -/
theorem not_mem_join {c : Char} {parts : List (List Char)}
    (h : ∀ p ∈ parts, c ∉ p) : c ∉ parts.join := by
  induction parts with
  | nil => simp
  | cons p parts ih =>
    simp only [List.join_cons]
    exact not_mem_append2 (h p (by simp)) (ih fun q hq => h q (by simp [hq]))

/-- Token extraction on a written data line, all four labels at once: with a
digit-only id slot, a round-trippable name and value texts drawn from the
value alphabet, `line.split(L)[1].split()[0]` recovers each written field. -/
theorem tokens_mkLine (idS name r x y : List Char)
    (hid1 : idS ≠ []) (hid2 : ∀ c ∈ idS, isDigitCh c = true)
    (hn1 : name.dropWhile (fun c => isWs c) = name)
    (hn2 : name.reverse.dropWhile (fun c => isWs c) = name.reverse)
    (hnR : occursB LRAD name = false) (hnX : occursB LX name = false)
    (hnY : occursB LY name = false)
    (hr1 : r ≠ []) (hr2 : ∀ c ∈ r, isValC c = true)
    (hx1 : x ≠ []) (hx2 : ∀ c ∈ x, isValC c = true)
    (hy1 : y ≠ []) (hy2 : ∀ c ∈ y, isValC c = true) :
    tokenAfter LID (mkLine idS name r x y) = Except.ok idS ∧
    extractName (mkLine idS name r x y) = name ∧
    tokenAfter LRAD (mkLine idS name r x y) = Except.ok r ∧
    tokenAfter LX (mkLine idS name r x y) = Except.ok x ∧
    tokenAfter LY (mkLine idS name r x y) = Except.ok y := by
  have hidns : ∀ c ∈ idS, isWs c = false := fun c hc => isWs_of_digit (hid2 c hc)
  have hrns : ∀ c ∈ r, isWs c = false := fun c hc => isWs_of_valC (hr2 c hc)
  have hxns : ∀ c ∈ x, isWs c = false := fun c hc => isWs_of_valC (hx2 c hc)
  have hyns : ∀ c ∈ y, isWs c = false := fun c hc => isWs_of_valC (hy2 c hc)
  have hljD : 'D' ∉ ljust 10 idS :=
    not_mem_ljust (not_mem_of_all hid2 (by decide)) (by decide) 10
  have hljm : 'm' ∉ ljust 10 idS :=
    not_mem_ljust (not_mem_of_all hid2 (by decide)) (by decide) 10
  have hljR : 'R' ∉ ljust 10 idS :=
    not_mem_ljust (not_mem_of_all hid2 (by decide)) (by decide) 10
  have hljX : 'X' ∉ ljust 10 idS :=
    not_mem_ljust (not_mem_of_all hid2 (by decide)) (by decide) 10
  have hljY : 'Y' ∉ ljust 10 idS :=
    not_mem_ljust (not_mem_of_all hid2 (by decide)) (by decide) 10
  have hrR : 'R' ∉ r := not_mem_of_all hr2 (by decide)
  have hrX : 'X' ∉ r := not_mem_of_all hr2 (by decide)
  have hrY : 'Y' ∉ r := not_mem_of_all hr2 (by decide)
  have hxR : 'R' ∉ x := not_mem_of_all hx2 (by decide)
  have hxX : 'X' ∉ x := not_mem_of_all hx2 (by decide)
  have hxY : 'Y' ∉ x := not_mem_of_all hx2 (by decide)
  have hyR : 'R' ∉ y := not_mem_of_all hy2 (by decide)
  have hyY : 'Y' ∉ y := not_mem_of_all hy2 (by decide)
  refine ⟨?_, ?_, ?_, ?_, ?_⟩
  · -- id token
    have heq : mkLine idS name r x y =
        [] ++ LID ++ (([' '] ++ ljust 10 idS ++ [' '] ++ LNAME ++ [' ']) ++
          (ljust 10 name ++ [' '] ++ LRAD ++ [' '] ++ r ++ [' ', '\t', '\t', ' '] ++
            LX ++ [' '] ++ x ++ ['\t', ' '] ++ LY ++ [' '] ++ y ++ ['\n'])) := by
      simp [mkLine, List.append_assoc]
    rw [heq]
    refine tokenAfter_clean (w := ' ') (by decide) (by decide) rfl ?_ ?_ (by decide)
      hid1 hidns
    · refine cleanPre_of_wsLast (by decide) ?_ ?_
      · refine occursB_eq_false_of_not_mem (c := 'D') (by decide) ?_
        have hj : ([' '] ++ ljust 10 idS ++ [' '] ++ LNAME ++ [' '] : List Char) =
            List.join [[' '], ljust 10 idS, [' '], LNAME, [' ']] := by
          simp [List.append_assoc]
        rw [hj]
        refine not_mem_join ?_
        intro p hp
        fin_cases hp
        exacts [by decide, hljD, by decide, by decide, by decide]
      · exact Or.inr ⟨[' '] ++ ljust 10 idS ++ [' '] ++ LNAME, ' ',
          by simp [List.append_assoc], by decide⟩
    · intro t
      obtain ⟨z, hz⟩ := replicate_space_cons (10 - idS.length) (LNAME ++ ' ' :: t)
      refine ⟨z, ?_⟩
      simp only [ljust, List.cons_append, List.nil_append, List.append_assoc]
      rw [← hz]
  · -- name
    have heq : mkLine idS name r x y =
        (LID ++ [' '] ++ ljust 10 idS ++ [' ']) ++ LNAME ++
          ([' '] ++ (name ++ List.replicate (10 - name.length) ' ') ++ [' ']) ++ LRAD ++
          ([' '] ++ r ++ [' ', '\t', '\t', ' '] ++ LX ++ [' '] ++ x ++ ['\t', ' '] ++
            LY ++ [' '] ++ y ++ ['\n']) := by
      simp [mkLine, ljust, List.append_assoc]
    rw [heq]
    refine extractName_clean _ _ _ _ ?_ ?_ hn1 hn2
    · refine occursB_eq_false_of_not_mem (c := 'm') (by decide) ?_
      have hj : (LID ++ [' '] ++ ljust 10 idS ++ [' '] : List Char) =
          List.join [LID, [' '], ljust 10 idS, [' ']] := by
        simp [List.append_assoc]
      rw [hj]
      refine not_mem_join ?_
      intro p hp
      fin_cases hp
      exacts [by decide, by decide, hljm, by decide]
    · refine occursB_eq_false_of_not_mem (c := 'R') (by decide) ?_
      have hj : ([' '] ++ r ++ [' ', '\t', '\t', ' '] ++ LX ++ [' '] ++ x ++
          ['\t', ' '] ++ LY ++ [' '] ++ y ++ ['\n'] : List Char) =
          List.join [[' '], r, [' ', '\t', '\t', ' '], LX, [' '], x, ['\t', ' '],
            LY, [' '], y, ['\n']] := by
        simp [List.append_assoc]
      rw [hj]
      refine not_mem_join ?_
      intro p hp
      fin_cases hp
      exacts [by decide, hrR, by decide, by decide, by decide, hxR, by decide,
        by decide, by decide, hyR, by decide]
  · -- radial token
    have heq : mkLine idS name r x y =
        (LID ++ [' '] ++ ljust 10 idS ++ [' '] ++ LNAME ++ [' '] ++ ljust 10 name ++
          [' ']) ++ LRAD ++ (([' '] ++ r ++ [' ']) ++
            (['\t', '\t', ' '] ++ LX ++ [' '] ++ x ++ ['\t', ' '] ++ LY ++ [' '] ++ y ++
              ['\n'])) := by
      simp [mkLine, List.append_assoc]
    rw [heq]
    refine tokenAfter_clean (w := ' ') (by decide) (by decide) ?_ ?_ ?_ (by decide)
      hr1 hrns
    · have hshape : (LID ++ [' '] ++ ljust 10 idS ++ [' '] ++ LNAME ++ [' '] ++
          ljust 10 name ++ [' '] : List Char) =
          (LID ++ [' '] ++ ljust 10 idS ++ [' '] ++ LNAME) ++ ' ' ::
            ((name ++ List.replicate (10 - name.length) ' ') ++ ' ' :: []) := by
        simp [ljust, List.append_assoc]
      rw [hshape]
      refine occursB_around_name (by decide) ?_ rfl hnR
      refine occursB_eq_false_of_not_mem (c := 'R') (by decide) ?_
      have hj : (LID ++ [' '] ++ ljust 10 idS ++ [' '] ++ LNAME : List Char) =
          List.join [LID, [' '], ljust 10 idS, [' '], LNAME] := by
        simp [List.append_assoc]
      rw [hj]
      refine not_mem_join ?_
      intro p hp
      fin_cases hp
      exacts [by decide, by decide, hljR, by decide, by decide]
    · refine cleanPre_of_wsLast (by decide) ?_ ?_
      · refine occursB_ws_cons (by decide) (by decide) ?_
        show occursB LRAD (r ++ [' ']) = false
        have hone : (r ++ [' '] : List Char) = r ++ List.replicate 1 ' ' := by simp
        rw [hone]
        exact occursB_pad (by decide) (occursB_eq_false_of_not_mem (by decide) hrR) 1
      · exact Or.inr ⟨[' '] ++ r, ' ', by simp [List.append_assoc], by decide⟩
    · intro t
      exact ⟨t, by simp [List.append_assoc]⟩
  · -- x token
    have heq : mkLine idS name r x y =
        (LID ++ [' '] ++ ljust 10 idS ++ [' '] ++ LNAME ++ [' '] ++ ljust 10 name ++ [' ']
          ++ LRAD ++ [' '] ++ r ++ [' ', '\t', '\t', ' ']) ++ LX ++
          (([' '] ++ x ++ ['\t']) ++ ([' '] ++ LY ++ [' '] ++ y ++ ['\n'])) := by
      simp [mkLine, List.append_assoc]
    rw [heq]
    refine tokenAfter_clean (w := '\t') (by decide) (by decide) ?_ ?_ ?_ (by decide)
      hx1 hxns
    · have hshape : (LID ++ [' '] ++ ljust 10 idS ++ [' '] ++ LNAME ++ [' '] ++
          ljust 10 name ++ [' '] ++ LRAD ++ [' '] ++ r ++ [' ', '\t', '\t', ' ']
            : List Char) =
          (LID ++ [' '] ++ ljust 10 idS ++ [' '] ++ LNAME) ++ ' ' ::
            ((name ++ List.replicate (10 - name.length) ' ') ++ ' ' ::
              (LRAD ++ [' '] ++ r ++ [' ', '\t', '\t', ' '])) := by
        simp [ljust, List.append_assoc]
      rw [hshape]
      refine occursB_around_name (by decide) ?_ ?_ hnX
      · refine occursB_eq_false_of_not_mem (c := 'X') (by decide) ?_
        have hj : (LID ++ [' '] ++ ljust 10 idS ++ [' '] ++ LNAME : List Char) =
            List.join [LID, [' '], ljust 10 idS, [' '], LNAME] := by
          simp [List.append_assoc]
        rw [hj]
        refine not_mem_join ?_
        intro p hp
        fin_cases hp
        exacts [by decide, by decide, hljX, by decide, by decide]
      · refine occursB_eq_false_of_not_mem (c := 'X') (by decide) ?_
        have hj : (LRAD ++ [' '] ++ r ++ [' ', '\t', '\t', ' '] : List Char) =
            List.join [LRAD, [' '], r, [' ', '\t', '\t', ' ']] := by
          simp [List.append_assoc]
        rw [hj]
        refine not_mem_join ?_
        intro p hp
        fin_cases hp
        exacts [by decide, by decide, hrX, by decide]
    · refine cleanPre_of_wsLast (by decide) ?_ ?_
      · refine occursB_ws_cons (by decide) (by decide) ?_
        show occursB LX (x ++ ['\t']) = false
        exact occursB_append_ws (by decide) (by decide)
          (occursB_eq_false_of_not_mem (by decide) hxX) rfl
      · exact Or.inr ⟨[' '] ++ x, '\t', by simp [List.append_assoc], by decide⟩
    · intro t
      exact ⟨t, by simp [List.append_assoc]⟩
  · -- y token
    have heq : mkLine idS name r x y =
        (LID ++ [' '] ++ ljust 10 idS ++ [' '] ++ LNAME ++ [' '] ++ ljust 10 name ++ [' ']
          ++ LRAD ++ [' '] ++ r ++ [' ', '\t', '\t', ' '] ++ LX ++ [' '] ++ x ++
            ['\t', ' ']) ++ LY ++ (([' '] ++ y ++ ['\n']) ++ []) := by
      simp [mkLine, List.append_assoc]
    rw [heq]
    refine tokenAfter_clean (w := '\n') (by decide) (by decide) ?_ ?_ ?_ (by decide)
      hy1 hyns
    · have hshape : (LID ++ [' '] ++ ljust 10 idS ++ [' '] ++ LNAME ++ [' '] ++
          ljust 10 name ++ [' '] ++ LRAD ++ [' '] ++ r ++ [' ', '\t', '\t', ' '] ++ LX ++
          [' '] ++ x ++ ['\t', ' '] : List Char) =
          (LID ++ [' '] ++ ljust 10 idS ++ [' '] ++ LNAME) ++ ' ' ::
            ((name ++ List.replicate (10 - name.length) ' ') ++ ' ' ::
              (LRAD ++ [' '] ++ r ++ [' ', '\t', '\t', ' '] ++ LX ++ [' '] ++ x ++
                ['\t', ' '])) := by
        simp [ljust, List.append_assoc]
      rw [hshape]
      refine occursB_around_name (by decide) ?_ ?_ hnY
      · refine occursB_eq_false_of_not_mem (c := 'Y') (by decide) ?_
        have hj : (LID ++ [' '] ++ ljust 10 idS ++ [' '] ++ LNAME : List Char) =
            List.join [LID, [' '], ljust 10 idS, [' '], LNAME] := by
          simp [List.append_assoc]
        rw [hj]
        refine not_mem_join ?_
        intro p hp
        fin_cases hp
        exacts [by decide, by decide, hljY, by decide, by decide]
      · refine occursB_eq_false_of_not_mem (c := 'Y') (by decide) ?_
        have hj : (LRAD ++ [' '] ++ r ++ [' ', '\t', '\t', ' '] ++ LX ++ [' '] ++ x ++
            ['\t', ' '] : List Char) =
            List.join [LRAD, [' '], r, [' ', '\t', '\t', ' '], LX, [' '], x,
              ['\t', ' ']] := by
          simp [List.append_assoc]
        rw [hj]
        refine not_mem_join ?_
        intro p hp
        fin_cases hp
        exacts [by decide, by decide, hrY, by decide, by decide, by decide, hxY,
          by decide]
    · refine cleanPre_of_wsLast (by decide) ?_ ?_
      · refine occursB_ws_cons (by decide) (by decide) ?_
        show occursB LY (y ++ ['\n']) = false
        exact occursB_append_ws (by decide) (by decide)
          (occursB_eq_false_of_not_mem (by decide) hyY) rfl
      · exact Or.inr ⟨[' '] ++ y, '\n', by simp [List.append_assoc], by decide⟩
    · intro t
      exact ⟨t, by simp [List.append_assoc]⟩

theorem pyStrip_eq_self {t : List Char} (h : ∀ c ∈ t, isWs c = false) : pyStrip t = t := by
  have h1 : t.dropWhile (fun c => isWs c) = t := by
    cases t with
    | nil => simp
    | cons c t' => simp [List.dropWhile_cons, h c (by simp)]
  have h2 : t.reverse.dropWhile (fun c => isWs c) = t.reverse := by
    cases hrev : t.reverse with
    | nil => simp
    | cons a l =>
      have ha : a ∈ t := by
        rw [← List.mem_reverse, hrev]
        simp
      simp [List.dropWhile_cons, h a ha]
  unfold pyStrip pyLStrip
  rw [h1, h2, List.reverse_reverse]

theorem is2decU_elim {t : List Char} (h : is2decU t = true) :
    ∃ intp c1 c2, t = intp ++ '.' :: [c1, c2] ∧ intp ≠ [] ∧
      (∀ c ∈ intp, isDigitCh c = true) ∧ isDigitCh c1 = true ∧ isDigitCh c2 = true := by
  unfold is2decU at h
  split at h
  · next c2 c1 rest heq =>
    simp only [Bool.and_eq_true] at h
    refine ⟨rest.reverse, c1, c2, ?_, ?_, ?_, h.1.1.2, h.1.1.1⟩
    · have := congrArg List.reverse heq
      simpa using this
    · intro hnil
      have : rest = [] := by simpa using congrArg List.reverse hnil
      rw [this] at h
      simp at h
    · intro c hc
      exact List.all_eq_true.mp h.2 c (by simpa using hc)
  · cases h

theorem decParts_frac {intp frac : List Char} (hne : intp ≠ [] ∨ frac ≠ [])
    (hid : ∀ c ∈ intp, isDigitCh c = true) (hfd : ∀ c ∈ frac, isDigitCh c = true) :
    decParts (intp ++ '.' :: frac) =
      some (digitsVal intp * 10 ^ frac.length + digitsVal frac, 10 ^ frac.length) := by
  have h1 : occursB ['.'] intp = false :=
    occursB_eq_false_of_not_mem (c := '.') (by simp) (not_mem_of_all hid (by decide))
  have h2 : occursB ['.'] frac = false :=
    occursB_eq_false_of_not_mem (c := '.') (by simp) (not_mem_of_all hfd (by decide))
  have hsplit : splitPy ['.'] (intp ++ '.' :: frac) = [intp, frac] := by
    have he : intp ++ '.' :: frac = intp ++ ['.'] ++ frac := by simp
    rw [he, splitPy_clean_append (by decide) (by decide) h1, splitPy_no_occurrence h2]
  have hcond : ((!intp.isEmpty || !frac.isEmpty) && intp.all isDigitCh &&
      frac.all isDigitCh) = true := by
    simp only [Bool.and_eq_true, Bool.or_eq_true, Bool.not_eq_true']
    refine ⟨⟨?_, List.all_eq_true.mpr fun c hc => hid c hc⟩,
      List.all_eq_true.mpr fun c hc => hfd c hc⟩
    rcases hne with hne | hne
    · left
      simpa [List.isEmpty_iff] using hne
    · right
      simpa [List.isEmpty_iff] using hne
  unfold decParts
  rw [hsplit]
  simp [hcond]

theorem parseDec_is2decU {t : List Char} (h : is2decU t = true) :
    ∃ q, parseDec t = some q := by
  obtain ⟨intp, c1, c2, rfl, hne, hid, h1, h2⟩ := is2decU_elim h
  cases intp with
  | nil => exact absurd rfl hne
  | cons d intp' =>
    have hd : isDigitCh d = true := hid d (by simp)
    refine ⟨mkRat (digitsVal (d :: intp') * 10 ^ (2 : Nat) + digitsVal [c1, c2])
      (10 ^ (2 : Nat)), ?_⟩
    rw [List.cons_append]
    show parseDec (d :: (intp' ++ '.' :: [c1, c2])) = _
    simp only [parseDec]
    rw [if_neg (ne_of_digit hd (by decide)), if_neg (ne_of_digit hd (by decide)),
      ← List.cons_append, decParts_frac (Or.inl (by simp)) hid
        (by intro c hc; simp only [List.mem_cons, List.mem_singleton] at hc
            rcases hc with rfl | rfl | hc
            · exact h1
            · exact h2
            · simp at hc)]
    simp

theorem parseDec_neg_is2decU {u : List Char} (h : is2decU u = true) :
    ∃ q, parseDec ('-' :: u) = some q := by
  obtain ⟨intp, c1, c2, rfl, hne, hid, h1, h2⟩ := is2decU_elim h
  refine ⟨mkRat (-((digitsVal intp * 10 ^ (2 : Nat) + digitsVal [c1, c2] : Nat) : Int))
    (10 ^ (2 : Nat)), ?_⟩
  simp only [parseDec, if_pos rfl]
  rw [decParts_frac (Or.inl hne) hid
    (by intro c hc; simp only [List.mem_cons, List.mem_singleton] at hc
        rcases hc with rfl | rfl | hc
        · exact h1
        · exact h2
        · simp at hc)]
  simp

theorem is2decU_valC {t : List Char} (h : is2decU t = true) :
    t ≠ [] ∧ ∀ c ∈ t, isValC c = true := by
  obtain ⟨intp, c1, c2, rfl, hne, hid, h1, h2⟩ := is2decU_elim h
  refine ⟨by simp, ?_⟩
  intro c hc
  simp only [List.mem_append, List.mem_cons, List.mem_singleton] at hc
  rcases hc with hc | rfl | rfl | rfl | hc
  · simp [isValC, hid c hc]
  · simp [isValC]
  · simp [isValC, h1]
  · simp [isValC, h2]
  · simp at hc

theorem radTok_valC {t : List Char} (h : radTok t = true) :
    t ≠ [] ∧ ∀ c ∈ t, isValC c = true := by
  unfold radTok at h
  simp only [Bool.or_eq_true, beq_iff_eq] at h
  rcases h with h | rfl
  · exact is2decU_valC h
  · exact ⟨by decide, by decide⟩

theorem xyTok_valC {t : List Char} (h : xyTok t = true) :
    t ≠ [] ∧ ∀ c ∈ t, isValC c = true := by
  unfold xyTok is2decS at h
  simp only [Bool.or_eq_true, beq_iff_eq] at h
  rcases h with (h | h) | rfl
  · exact is2decU_valC h
  · split at h
    · next u =>
      obtain ⟨hne, hval⟩ := is2decU_valC h
      refine ⟨by simp, ?_⟩
      intro c hc
      simp only [List.mem_cons] at hc
      rcases hc with rfl | hc
      · decide
      · exact hval c hc
    · cases h
  · exact ⟨by decide, by decide⟩

theorem radTok_parse {t : List Char} (h : radTok t = true) :
    ∃ q, parseDec (pyStrip t) = some q := by
  have hstrip : pyStrip t = t :=
    pyStrip_eq_self fun c hc => isWs_of_valC ((radTok_valC h).2 c hc)
  rw [hstrip]
  unfold radTok at h
  simp only [Bool.or_eq_true, beq_iff_eq] at h
  rcases h with h | rfl
  · exact parseDec_is2decU h
  · exact ⟨mkRat 99999 1, by decide⟩

theorem xyTok_parse {t : List Char} (h : xyTok t = true) :
    ∃ q, parseDec (pyStrip t) = some q := by
  have hstrip : pyStrip t = t :=
    pyStrip_eq_self fun c hc => isWs_of_valC ((xyTok_valC h).2 c hc)
  rw [hstrip]
  unfold xyTok is2decS at h
  simp only [Bool.or_eq_true, beq_iff_eq] at h
  rcases h with (h | h) | rfl
  · exact parseDec_is2decU h
  · split at h
    · next u => exact parseDec_neg_is2decU h
    · cases h
  · exact ⟨mkRat 99999 1, by decide⟩

/-- On a well-formed written data line, `format_line` reduces to the pure
conversion of the five written fields. -/
theorem format_line_mkLine (idS name r x y : List Char)
    (hid1 : idS ≠ []) (hid2 : ∀ c ∈ idS, isDigitCh c = true)
    (hn1 : name.dropWhile (fun c => isWs c) = name)
    (hn2 : name.reverse.dropWhile (fun c => isWs c) = name.reverse)
    (hnR : occursB LRAD name = false) (hnX : occursB LX name = false)
    (hnY : occursB LY name = false)
    (hr1 : r ≠ []) (hr2 : ∀ c ∈ r, isValC c = true)
    (hx1 : x ≠ []) (hx2 : ∀ c ∈ x, isValC c = true)
    (hy1 : y ≠ []) (hy2 : ∀ c ∈ y, isValC c = true) :
    format_line (mkLine idS name r x y) = convertRow idS name r x y := by
  obtain ⟨hID, hN, hR, hX, hY⟩ := tokens_mkLine idS name r x y hid1 hid2 hn1 hn2 hnR
    hnX hnY hr1 hr2 hx1 hx2 hy1 hy2
  have hpfx : hasPfx LID (mkLine idS name r x y) = true := by
    have heq : mkLine idS name r x y =
        LID ++ ([' '] ++ ljust 10 idS ++ [' '] ++ LNAME ++ [' '] ++ ljust 10 name ++ [' ']
          ++ LRAD ++ [' '] ++ r ++ [' ', '\t', '\t', ' '] ++ LX ++ [' '] ++ x ++
          ['\t', ' '] ++ LY ++ [' '] ++ y ++ ['\n']) := by
      simp [mkLine, List.append_assoc]
    rw [heq]
    exact hasPfx_append_self _ _
  unfold format_line
  rw [hpfx]
  simp only [if_true, hID, hN, hR, hX, hY]
  rfl

/-- The id slot written by the f-string: `str(index)` is nonempty digits. -/
theorem natRepr_good (n : Nat) : natRepr n ≠ [] ∧ ∀ c ∈ natRepr n, isDigitCh c = true :=
  ⟨natRepr_ne_nil n, fun _ hc => natRepr_digits hc⟩

/-- Parsing the written line of a round-trippable image record recovers the
expected row. -/
theorem format_line_writeLine (img : Image) (hname : goodName img.name)
    (hmeas : goodMeas (renderStored img.radial) (renderStored img.xaxis)
      (renderStored img.yaxis)) :
    format_line (writeLine img) = Except.ok (some (expectedRow img)) := by
  obtain ⟨hn1, hn2, hnR, hnX, hnY⟩ := hname
  have hid := natRepr_good img.index
  rcases hmeas with ⟨hrn, hxn, hyn⟩ | ⟨hrt, hxt, hyt⟩
  · -- all three fields are the N/A sentinel
    unfold writeLine
    rw [hrn, hxn, hyn]
    rw [format_line_mkLine _ _ _ _ _ hid.1 hid.2 hn1 hn2 hnR hnX hnY
      (by decide) (by decide) (by decide) (by decide) (by decide) (by decide)]
    unfold convertRow expectedRow expectedVal
    rw [if_pos ⟨rfl, rfl, rfl⟩, hrn, hxn, hyn]
    rfl
  · -- all three fields are float-parsable text
    obtain ⟨hr1, hr2⟩ := radTok_valC hrt
    obtain ⟨hx1, hx2⟩ := xyTok_valC hxt
    obtain ⟨hy1, hy2⟩ := xyTok_valC hyt
    obtain ⟨qr, hqr⟩ := radTok_parse hrt
    obtain ⟨qx, hqx⟩ := xyTok_parse hxt
    obtain ⟨qy, hqy⟩ := xyTok_parse hyt
    unfold writeLine
    rw [format_line_mkLine _ _ _ _ _ hid.1 hid.2 hn1 hn2 hnR hnX hnY
      hr1 hr2 hx1 hx2 hy1 hy2]
    have hrNA : renderStored img.radial ≠ NAL := by
      intro hcontra
      rw [hcontra] at hrt
      cases hrt
    unfold convertRow
    rw [if_neg fun hc => hrNA hc.1]
    unfold pyFloat
    rw [hqr, hqx, hqy]
    unfold expectedRow expectedVal
    rw [hqr, hqx, hqy]
    rfl

/-- `mapM` over `Except` with pointwise success. -/
theorem mapM_ok {α β : Type} {f : α → Except PyExc β} {g : α → β} {l : List α}
    (h : ∀ a ∈ l, f a = Except.ok (g a)) : l.mapM f = Except.ok (l.map g) := by
  induction l with
  | nil => rfl
  | cons a l ih =>
    rw [List.mapM_cons, h a (by simp), ih fun b hb => h b (by simp [hb])]
    rfl

/-- Written data lines survive the `"="`-prefix filter. -/
theorem mkLine_kept (a b c d e : List Char) :
    hasPfx ['='] (pyStrip (mkLine a b c d e)) = false := by
  obtain ⟨T, hT⟩ : ∃ T, mkLine a b c d e = 'I' :: 'D' :: T :=
    ⟨[' '] ++ ljust 10 a ++ [' '] ++ LNAME ++ [' '] ++ ljust 10 b ++ [' '] ++ LRAD ++
      [' '] ++ c ++ [' ', '\t', '\t', ' '] ++ LX ++ [' '] ++ d ++ ['\t', ' '] ++ LY ++
      [' '] ++ e ++ ['\n'], by simp [mkLine, LID, List.append_assoc]⟩
  rw [hT]
  exact filter_keeps _ (by decide) (by decide)

/-- Parsing the written lines of a batch of round-trippable records, one
row per record, in order. -/
theorem mapM_writeLine (imgs : List Image)
    (h : ∀ img ∈ imgs, goodName img.name ∧
      goodMeas (renderStored img.radial) (renderStored img.xaxis)
        (renderStored img.yaxis)) :
    (imgs.map writeLine).mapM format_line =
      Except.ok (imgs.map fun img => some (expectedRow img)) := by
  induction imgs with
  | nil => rfl
  | cons img imgs ih =>
    simp only [List.map_cons]
    rw [List.mapM_cons, format_line_writeLine img (h img (by simp)).1 (h img (by simp)).2,
      ih fun b hb => h b (by simp [hb])]
    rfl

/-- Claim C1 (amended): writing a batch of trial records into a fresh
results file and parsing it back with `format_line` (skipping `=`-prefixed
lines) yields exactly one row per record, in order, with the written id and
name and with each measurement field recovered from its written text — the
all-`"N/A"` sentinel triple as the three strings `"N/A"`, numeric text
(2-decimal, or the out-of-bounds `99999`) as its float value — provided
each record's name has no leading or trailing whitespace and contains no
value label, and its measurements are either the whole-row `"N/A"` triple
or individually float-parsable (a row mixing `"N/A"` with numeric text does
not round-trip: it raises an uncaught `ValueError`). -/
theorem trial_roundtrip (imgs : List Image)
    (h : ∀ img ∈ imgs, goodName img.name ∧
      goodMeas (renderStored img.radial) (renderStored img.xaxis)
        (renderStored img.yaxis)) :
    readData (write_results none imgs) =
      Except.ok (imgs.map fun img => some (expectedRow img)) := by
  have hfilter : ((headerLine :: sepLine :: imgs.map writeLine).filter
      fun l => !hasPfx ['='] (pyStrip l)) = imgs.map writeLine := by
    rw [List.filter_cons, List.filter_cons]
    have h1 : (!hasPfx ['='] (pyStrip headerLine)) = false := by decide
    have h2 : (!hasPfx ['='] (pyStrip sepLine)) = false := by decide
    rw [h1, h2]
    simp only [Bool.false_eq_true, if_false]
    rw [List.filter_eq_self.mpr]
    intro l hl
    obtain ⟨img, _, rfl⟩ := List.mem_map.mp hl
    simp [writeLine, mkLine_kept]
  show ((headerLine :: sepLine :: imgs.map writeLine).filter
      fun l => !hasPfx ['='] (pyStrip l)).mapM format_line = _
  rw [hfilter]
  exact mapM_writeLine imgs h

theorem except_bind_ok {α β : Type} (a : α) (f : α → Except PyExc β) :
    (Except.ok a >>= f) = f a := rfl

theorem except_bind_error {α β : Type} (e : PyExc) (f : α → Except PyExc β) :
    ((Except.error e : Except PyExc α) >>= f) = Except.error e := rfl

theorem listGet_error {l : List (List Char)} {n : Nat} {e : PyExc}
    (h : listGet l n = Except.error e) : e = PyExc.indexError IDXMSG := by
  unfold listGet at h
  cases hg : l.get? n with
  | some a => rw [hg] at h; cases h
  | none =>
    rw [hg] at h
    exact (Except.error.inj h).symm

theorem tokenAfter_error {sep l : List Char} {e : PyExc}
    (h : tokenAfter sep l = Except.error e) : e = PyExc.indexError IDXMSG := by
  unfold tokenAfter at h
  cases h1 : listGet (splitPy sep l) 1 with
  | error e1 =>
    rw [h1, except_bind_error] at h
    exact (listGet_error (h1.trans (congrArg Except.error (Except.error.inj h))))
  | ok seg =>
    rw [h1, except_bind_ok] at h
    exact listGet_error h

theorem tokenAfter_missing {sep l : List Char} (h : occursB sep l = false) :
    tokenAfter sep l = Except.error (PyExc.indexError IDXMSG) := by
  unfold tokenAfter
  rw [splitPy_no_occurrence h]
  rfl

theorem pyFloat_error_shape {t : List Char} {e : PyExc}
    (h : pyFloat t = Except.error e) : ∃ m, e = PyExc.valueError m := by
  unfold pyFloat at h
  cases hp : parseDec (pyStrip t) with
  | some q => rw [hp] at h; cases h
  | none =>
    rw [hp] at h
    exact ⟨_, (Except.error.inj h).symm⟩

/-- On a data line missing one of the three value labels, `format_line`
raises (an `IndexError` from the label lookup, or possibly an earlier
exception from another malformed slot). -/
theorem format_line_error_of_missing {l : List Char} (hid : hasPfx LID l = true)
    (hmiss : occursB LRAD l = false ∨ occursB LX l = false ∨ occursB LY l = false) :
    ∃ e, format_line l = Except.error e := by
  unfold format_line
  rw [hid]
  simp only [if_true]
  cases hID : tokenAfter LID l with
  | error e => exact ⟨e, rfl⟩
  | ok tid =>
    simp only [except_bind_ok]
    cases hR : tokenAfter LRAD l with
    | error e => exact ⟨e, rfl⟩
    | ok tr =>
      have hRocc : occursB LRAD l = true := by
        by_contra hc
        rw [Bool.not_eq_true] at hc
        rw [tokenAfter_missing hc] at hR
        cases hR
      simp only [except_bind_ok]
      cases hX : tokenAfter LX l with
      | error e => exact ⟨e, rfl⟩
      | ok tx =>
        have hXocc : occursB LX l = true := by
          by_contra hc
          rw [Bool.not_eq_true] at hc
          rw [tokenAfter_missing hc] at hX
          cases hX
        simp only [except_bind_ok]
        have hYocc : occursB LY l = false := by
          rcases hmiss with hm | hm | hm
          · rw [hm] at hRocc; cases hRocc
          · rw [hm] at hXocc; cases hXocc
          · exact hm
        rw [tokenAfter_missing hYocc, except_bind_error]
        exact ⟨_, rfl⟩

theorem mapM_error_source {α β : Type} {f : α → Except PyExc β} {l : List α} {e : PyExc}
    (h : l.mapM f = Except.error e) : ∃ a ∈ l, f a = Except.error e := by
  induction l with
  | nil => cases h
  | cons b l ih =>
    rw [List.mapM_cons] at h
    cases hb : f b with
    | error e1 =>
      rw [hb, except_bind_error] at h
      exact ⟨b, by simp, by rw [hb, Except.error.inj h]⟩
    | ok v =>
      rw [hb, except_bind_ok] at h
      cases hl : l.mapM f with
      | error e1 =>
        rw [hl, except_bind_error] at h
        obtain ⟨a, ha, hfa⟩ := ih (hl.trans (congrArg Except.error (Except.error.inj h)))
        exact ⟨a, by simp [ha], hfa⟩
      | ok vs =>
        rw [hl, except_bind_ok] at h
        cases h

theorem mapM_error_of_mem {α β : Type} {f : α → Except PyExc β} {l : List α} {a : α}
    (ha : a ∈ l) (he : ∃ e, f a = Except.error e) :
    ∃ e, l.mapM f = Except.error e := by
  induction l with
  | nil => cases ha
  | cons b l ih =>
    rw [List.mapM_cons]
    cases hb : f b with
    | error e => exact ⟨e, by rw [except_bind_error]⟩
    | ok v =>
      rw [except_bind_ok]
      rcases List.mem_cons.mp ha with rfl | ha'
      · obtain ⟨e, he'⟩ := he
        rw [he'] at hb
        cases hb
      · obtain ⟨e2, he2⟩ := ih ha'
        exact ⟨e2, by rw [he2, except_bind_error]⟩

/-- Every `IndexError` escaping `format_line` carries Python's generic
out-of-range message: the parser never attaches the line content. -/
theorem format_line_indexError_msg {l : List Char} {m : List Char}
    (h : format_line l = Except.error (PyExc.indexError m)) : m = IDXMSG := by
  unfold format_line at h
  by_cases hid : hasPfx LID l = true
  · rw [hid] at h
    simp only [if_true] at h
    cases hID : tokenAfter LID l with
    | error e =>
      rw [hID, except_bind_error] at h
      have heq : e = PyExc.indexError m := Except.error.inj h
      rw [heq] at hID
      exact PyExc.indexError.inj (tokenAfter_error hID)
    | ok tid =>
      rw [hID, except_bind_ok] at h
      cases hR : tokenAfter LRAD l with
      | error e =>
        rw [hR, except_bind_error] at h
        have heq : e = PyExc.indexError m := Except.error.inj h
        rw [heq] at hR
        exact PyExc.indexError.inj (tokenAfter_error hR)
      | ok tr =>
        rw [hR, except_bind_ok] at h
        cases hX : tokenAfter LX l with
        | error e =>
          rw [hX, except_bind_error] at h
          have heq : e = PyExc.indexError m := Except.error.inj h
          rw [heq] at hX
          exact PyExc.indexError.inj (tokenAfter_error hX)
        | ok tx =>
          rw [hX, except_bind_ok] at h
          cases hY : tokenAfter LY l with
          | error e =>
            rw [hY, except_bind_error] at h
            have heq : e = PyExc.indexError m := Except.error.inj h
            rw [heq] at hY
            exact PyExc.indexError.inj (tokenAfter_error hY)
          | ok ty =>
            rw [hY, except_bind_ok] at h
            by_cases hna : tr = NAL ∧ tx = NAL ∧ ty = NAL
            · rw [if_pos hna] at h
              cases h
            · rw [if_neg hna] at h
              cases hf1 : pyFloat tr with
              | error e =>
                rw [hf1, except_bind_error] at h
                obtain ⟨m2, hm2⟩ := pyFloat_error_shape hf1
                have heq : e = PyExc.indexError m := Except.error.inj h
                rw [hm2] at heq
                cases heq
              | ok q1 =>
                rw [hf1, except_bind_ok] at h
                cases hf2 : pyFloat tx with
                | error e =>
                  rw [hf2, except_bind_error] at h
                  obtain ⟨m2, hm2⟩ := pyFloat_error_shape hf2
                  have heq : e = PyExc.indexError m := Except.error.inj h
                  rw [hm2] at heq
                  cases heq
                | ok q2 =>
                  rw [hf2, except_bind_ok] at h
                  cases hf3 : pyFloat ty with
                  | error e =>
                    rw [hf3, except_bind_error] at h
                    obtain ⟨m2, hm2⟩ := pyFloat_error_shape hf3
                    have heq : e = PyExc.indexError m := Except.error.inj h
                    rw [hm2] at heq
                    cases heq
                  | ok q3 =>
                    rw [hf3, except_bind_ok] at h
                    cases h
  · rw [Bool.not_eq_true] at hid
    rw [hid] at h
    simp only [Bool.false_eq_true, if_false] at h
    cases h

/-- On a data line whose three measurement tokens mix the `N/A` sentinel
with other text, `format_line` raises a `ValueError` from `float("N/A")`
(or from whichever token fails to convert first). -/
theorem format_line_valueError_of_mixed {l tid tr tx ty : List Char}
    (hpfx : hasPfx LID l = true)
    (hID : tokenAfter LID l = Except.ok tid)
    (hR : tokenAfter LRAD l = Except.ok tr)
    (hX : tokenAfter LX l = Except.ok tx)
    (hY : tokenAfter LY l = Except.ok ty)
    (hsome : tr = NAL ∨ tx = NAL ∨ ty = NAL)
    (hnotall : ¬(tr = NAL ∧ tx = NAL ∧ ty = NAL)) :
    ∃ m, format_line l = Except.error (PyExc.valueError m) := by
  have hNA : ∀ e, pyFloat NAL ≠ Except.ok e := by
    intro e h
    cases h
  unfold format_line
  rw [hpfx]
  simp only [if_true, hID, hR, hX, hY, except_bind_ok]
  rw [if_neg hnotall]
  cases hf1 : pyFloat tr with
  | error e =>
    obtain ⟨m, hm⟩ := pyFloat_error_shape hf1
    exact ⟨m, by rw [hm]; exact except_bind_error _ _⟩
  | ok q1 =>
    have htr : tr ≠ NAL := by
      rintro rfl
      exact hNA q1 hf1
    simp only [except_bind_ok]
    cases hf2 : pyFloat tx with
    | error e =>
      obtain ⟨m, hm⟩ := pyFloat_error_shape hf2
      exact ⟨m, by rw [hm]; exact except_bind_error _ _⟩
    | ok q2 =>
      have htx : tx ≠ NAL := by
        rintro rfl
        exact hNA q2 hf2
      simp only [except_bind_ok]
      have hty : ty = NAL := by
        rcases hsome with hs | hs | hs
        · exact absurd hs htr
        · exact absurd hs htx
        · exact hs
      subst hty
      exact ⟨_, by rw [show pyFloat NAL = Except.error (PyExc.valueError
        ("could not convert string to float: ".toList ++ NAL)) from by decide,
        except_bind_error]⟩

/-- A line that begins with `"ID"` is never removed by the `"="` filter. -/
theorem kept_of_id {l : List Char} (h : hasPfx LID l = true) :
    hasPfx ['='] (pyStrip l) = false := by
  obtain ⟨t, rfl⟩ := hasPfx_iff.mp h
  exact filter_keeps _ (by decide) (by decide)

/-- An uncaught `ValueError` from `format_line` on a single-line file
propagates out of `read_and_display_data`. -/
theorem read_valueError (prev : Option (List (Option Row))) (path l m : List Char)
    (hl : format_line l = Except.error (PyExc.valueError m))
    (hkeep : hasPfx ['='] (pyStrip l) = false) :
    read_and_display_data prev path [l] = Except.error (PyExc.valueError m) := by
  have hread : readData [l] = Except.error (PyExc.valueError m) := by
    unfold readData
    rw [List.filter_cons]
    rw [hkeep]
    simp only [Bool.not_false, if_true, List.filter_nil, List.mapM_cons, hl,
      except_bind_error]
  unfold read_and_display_data
  rw [hread]

theorem format_line_none {l : List Char} (h : hasPfx LID l = false) :
    format_line l = Except.ok none := by
  unfold format_line
  rw [h]
  rfl

theorem readData_single_none {l : List Char}
    (hkeep : hasPfx ['='] (pyStrip l) = false) (hid : hasPfx LID l = false) :
    readData [l] = Except.ok [none] := by
  unfold readData
  rw [List.filter_cons, hkeep]
  simp only [Bool.not_false, if_true, List.filter_nil, List.mapM_cons,
    format_line_none hid, except_bind_ok]
  rfl

theorem sqrt_100 : Real.sqrt (((100 : ℝ) - 100) ^ 2 + ((200 : ℝ) - 100) ^ 2) = 100 := by
  rw [show ((100 : ℝ) - 100) ^ 2 + ((200 : ℝ) - 100) ^ 2 = 100 ^ 2 by norm_num]
  exact Real.sqrt_sq (by norm_num)

theorem sqrt_50 : Real.sqrt (((150 : ℝ) - 100) ^ 2 + ((100 : ℝ) - 100) ^ 2) = 50 := by
  rw [show ((150 : ℝ) - 100) ^ 2 + ((100 : ℝ) - 100) ^ 2 = 50 ^ 2 by norm_num]
  exact Real.sqrt_sq (by norm_num)

/-- Claim C7: `calculate_error(A, B, s)` returns
`s * sqrt((xB-xA)^2 + (yB-yA)^2)`; in particular it is linear in the scale:
`calculate_error(A, B, s) = s * calculate_error(A, B, 1)`.  It is a total
function of its real inputs (the model never fails). -/
theorem calculate_error_spec (point1 point2 : ℝ × ℝ) (s : ℝ) :
    calculate_error point1 point2 s =
      s * Real.sqrt ((point2.1 - point1.1) ^ 2 + (point2.2 - point1.2) ^ 2) ∧
    calculate_error point1 point2 s = s * calculate_error point1 point2 1 := by
  unfold calculate_error
  constructor
  · ring
  · ring

/-- Claim C2: `calculate_scaling_factor(d, A, B)` raises the
degenerate-calibration `ValueError` exactly when the two calibration points
coincide, and otherwise returns `d` divided by the pixel distance. -/
theorem scaling_factor_spec (d : ℝ) (A B : ℝ × ℝ) :
    (calculate_scaling_factor d A B = Except.error DEGEN_MSG ↔ A = B) ∧
    (A ≠ B → calculate_scaling_factor d A B = Except.ok (d / calculate_error A B 1)) := by
  have hkey : calculate_error A B 1 = 0 ↔ A = B := by
    unfold calculate_error
    rw [mul_one, Real.sqrt_eq_zero']
    constructor
    · intro h
      have h1 : (B.1 - A.1) ^ 2 + (B.2 - A.2) ^ 2 = 0 := le_antisymm h (by positivity)
      have h2 : (B.1 - A.1) ^ 2 = 0 ∧ (B.2 - A.2) ^ 2 = 0 :=
        (add_eq_zero_iff_of_nonneg (by positivity) (by positivity)).mp h1
      have hx : B.1 = A.1 := by
        have := pow_eq_zero_iff (n := 2) (by norm_num) |>.mp h2.1
        linarith [sub_eq_zero.mp this]
      have hy : B.2 = A.2 := by
        have := pow_eq_zero_iff (n := 2) (by norm_num) |>.mp h2.2
        linarith [sub_eq_zero.mp this]
      exact Prod.ext hx.symm hy.symm
    · rintro rfl
      simp
  constructor
  · constructor
    · intro h
      by_cases hz : calculate_error A B 1 = 0
      · exact hkey.mp hz
      · unfold calculate_scaling_factor at h
        rw [if_neg hz] at h
        cases h
    · intro h
      unfold calculate_scaling_factor
      rw [if_pos (hkey.mpr h)]
  · intro hne
    unfold calculate_scaling_factor
    rw [if_neg fun hz => hne (hkey.mp hz)]

/-- Claim C3 (code evaluation at the failing input): for an orientation
outside `{0,1,2,3}` the current trial's deltas are left unremapped, so the
trial with target `(100,100)`, implement `(150,100)` and scaling factor
`0.5` yields `xaxis = -25`, while the same trial at orientation 0 yields
`xaxis = 25`.  The fallback therefore does not reproduce orientation 0 for
the current trial, contradicting the code's own
"Using the default orientation" message. -/
theorem orientation_fallback_eval :
    calculate_and_display (100, 100) (150, 100) (1 / 2) 7 = (25, -25, 0) ∧
    calculate_and_display (100, 100) (150, 100) (1 / 2) 0 = (25, 25, 0) ∧
    remapDelta 7 ((100 : ℝ) - 150) (100 - 100) = (-50, 0) ∧
    remapDelta 0 ((100 : ℝ) - 150) (100 - 100) = (50, 0) := by
  have hr : calculate_error (100, 100) (150, 100) (1 / 2) = 25 := by
    unfold calculate_error
    rw [show (((150, 100) : ℝ × ℝ).1 - ((100, 100) : ℝ × ℝ).1) ^ 2 +
      (((150, 100) : ℝ × ℝ).2 - ((100, 100) : ℝ × ℝ).2) ^ 2 =
      ((150 : ℝ) - 100) ^ 2 + ((100 : ℝ) - 100) ^ 2 from rfl, sqrt_50]
    norm_num
  refine ⟨?_, ?_, ?_, ?_⟩
  · unfold calculate_and_display remapDelta
    rw [if_neg (by decide), if_neg (by decide), if_neg (by decide), if_neg (by decide)]
    rw [hr]
    norm_num [Prod.ext_iff]
  · unfold calculate_and_display remapDelta
    rw [if_pos rfl]
    rw [hr]
    norm_num [Prod.ext_iff]
  · unfold remapDelta
    rw [if_neg (by decide), if_neg (by decide), if_neg (by decide), if_neg (by decide)]
    norm_num [Prod.ext_iff]
  · unfold remapDelta
    rw [if_pos rfl]
    norm_num [Prod.ext_iff]

/-- Claim C4: calibration points `(100,100)` and `(100,200)` at real-world
distance 50 give scaling factor `0.5`; the trial with target `(100,100)`,
implement `(150,100)` and orientation 0 then yields radial 25, xaxis 25 and
yaxis 0, formatted `"25.00"`, `"25.00"` and `"0.00"`. -/
theorem concrete_scenario :
    calculate_scaling_factor 50 (100, 100) (100, 200) = Except.ok (1 / 2) ∧
    calculate_and_display (100, 100) (150, 100) (1 / 2) 0 = (25, 25, 0) ∧
    format2f 25 = "25.00".toList ∧ format2f 0 = "0.00".toList := by
  refine ⟨?_, ?_, by decide, by decide⟩
  · have hpd : calculate_error (100, 100) (100, 200) 1 = 100 := by
      unfold calculate_error
      rw [show (((100, 200) : ℝ × ℝ).1 - ((100, 100) : ℝ × ℝ).1) ^ 2 +
        (((100, 200) : ℝ × ℝ).2 - ((100, 100) : ℝ × ℝ).2) ^ 2 =
        ((100 : ℝ) - 100) ^ 2 + ((200 : ℝ) - 100) ^ 2 from rfl, sqrt_100]
      norm_num
    unfold calculate_scaling_factor
    rw [if_neg (by rw [hpd]; norm_num), hpd]
    norm_num
  · have hr : calculate_error (100, 100) (150, 100) (1 / 2) = 25 := by
      unfold calculate_error
      rw [show (((150, 100) : ℝ × ℝ).1 - ((100, 100) : ℝ × ℝ).1) ^ 2 +
        (((150, 100) : ℝ × ℝ).2 - ((100, 100) : ℝ × ℝ).2) ^ 2 =
        ((150 : ℝ) - 100) ^ 2 + ((100 : ℝ) - 100) ^ 2 from rfl, sqrt_50]
      norm_num
    unfold calculate_and_display remapDelta
    rw [if_pos rfl]
    rw [hr]
    norm_num [Prod.ext_iff]

/-- Claim C8: on a missing results file `write_results` writes exactly the
two preamble lines (the `=`-prefixed header of five labels each padded to
width 15, then the literal `===` line) followed by one line per trial; on an
existing file it appends one line per trial, leaving the existing content as
an unchanged prefix. -/
theorem write_results_spec (imgs : List Image) (existing : List (List Char)) :
    write_results none imgs =
      ("=ID             Image Name     Radial         X-Axis         Y-Axis         \n").toList
        :: ("===\n").toList :: imgs.map writeLine ∧
    write_results (some existing) imgs = existing ++ imgs.map writeLine ∧
    (write_results (some existing) imgs).take existing.length = existing ∧
    (write_results (some existing) imgs).length = existing.length + imgs.length := by
  refine ⟨?_, rfl, ?_, ?_⟩
  · unfold write_results
    rw [show headerLine =
      ("=ID             Image Name     Radial         X-Axis         Y-Axis         \n").toList
      from by decide]
    rw [show sepLine = ("===\n").toList from by decide]
    rfl
  · unfold write_results
    exact List.take_left existing _
  · unfold write_results
    simp

theorem trial_roundtrip_witness :
    (goodName imgNum.name ∧ goodMeas (renderStored imgNum.radial) (renderStored imgNum.xaxis)
      (renderStored imgNum.yaxis)) ∧
    (goodName imgNA.name ∧ goodMeas (renderStored imgNA.radial) (renderStored imgNA.xaxis)
      (renderStored imgNA.yaxis)) ∧
    readData (write_results none [imgNum, imgNA]) =
      Except.ok [some (expectedRow imgNum), some (expectedRow imgNA)] :=
  ⟨⟨by decide, by decide⟩, ⟨by decide, by decide⟩,
    (trial_roundtrip [imgNum, imgNA] (by decide)).trans rfl⟩

/-- The unamended claim fails on a record that mixes the `"N/A"` sentinel
with numeric text (each field individually "non-negative or sentinel" /
"signed or sentinel"): parsing the file it writes raises a `ValueError`
instead of returning one row per trial. -/
theorem trial_roundtrip_counterexample :
    readData (write_results none [imgMixed]) =
      Except.error (PyExc.valueError ("could not convert string to float: ".toList ++ NAL)) := by
  decide

/-- Claim C5 (amended): a no-image record parses back with the string
`"N/A"` in all three measurement fields, and a string cell is
distinguishable from every numeric cell; an out-of-bounds record parses
back with the float value 99999 in all three fields, which coincides with
the result of parsing a genuine measurement written as `99999.00` — so
after parsing only the `"N/A"` sentinel remains distinguishable from
numeric rows. -/
theorem sentinel_roundtrip (name : List Char) (idx : Nat) (hname : goodName name) :
    format_line (writeLine ⟨name, idx, Stored.strv NAL, Stored.strv NAL, Stored.strv NAL⟩) =
      Except.ok (some ⟨natRepr idx, name, PyVal.str NAL, PyVal.str NAL, PyVal.str NAL⟩) ∧
    format_line (writeLine ⟨name, idx, Stored.intv OUT_OF_BOUNDS, Stored.intv OUT_OF_BOUNDS,
        Stored.intv OUT_OF_BOUNDS⟩) =
      Except.ok (some ⟨natRepr idx, name, PyVal.num 99999, PyVal.num 99999, PyVal.num 99999⟩) ∧
    format_line (writeLine ⟨name, idx, Stored.intv OUT_OF_BOUNDS, Stored.intv OUT_OF_BOUNDS,
        Stored.intv OUT_OF_BOUNDS⟩) =
      format_line (writeLine ⟨name, idx, Stored.strv "99999.00".toList,
        Stored.strv "99999.00".toList, Stored.strv "99999.00".toList⟩) ∧
    (∀ q : Rat, PyVal.str NAL ≠ PyVal.num q) := by
  have h1 := format_line_writeLine ⟨name, idx, Stored.strv NAL, Stored.strv NAL,
    Stored.strv NAL⟩ hname (Or.inl ⟨rfl, rfl, rfl⟩)
  have h2 := format_line_writeLine ⟨name, idx, Stored.intv OUT_OF_BOUNDS,
    Stored.intv OUT_OF_BOUNDS, Stored.intv OUT_OF_BOUNDS⟩ hname
    (by decide : goodMeas (renderStored (Stored.intv OUT_OF_BOUNDS))
      (renderStored (Stored.intv OUT_OF_BOUNDS)) (renderStored (Stored.intv OUT_OF_BOUNDS)))
  have h3 := format_line_writeLine ⟨name, idx, Stored.strv "99999.00".toList,
    Stored.strv "99999.00".toList, Stored.strv "99999.00".toList⟩ hname
    (by decide : goodMeas (renderStored (Stored.strv "99999.00".toList))
      (renderStored (Stored.strv "99999.00".toList))
      (renderStored (Stored.strv "99999.00".toList)))
  have hv : expectedVal (renderStored (Stored.intv OUT_OF_BOUNDS)) = PyVal.num 99999 := by
    decide
  have hv2 : expectedVal (renderStored (Stored.strv "99999.00".toList)) = PyVal.num 99999 := by
    decide
  have hrow : expectedRow ⟨name, idx, Stored.intv OUT_OF_BOUNDS, Stored.intv OUT_OF_BOUNDS,
      Stored.intv OUT_OF_BOUNDS⟩ =
      ⟨natRepr idx, name, PyVal.num 99999, PyVal.num 99999, PyVal.num 99999⟩ := by
    unfold expectedRow
    rw [hv]
  have hrow2 : expectedRow ⟨name, idx, Stored.strv "99999.00".toList,
      Stored.strv "99999.00".toList, Stored.strv "99999.00".toList⟩ =
      ⟨natRepr idx, name, PyVal.num 99999, PyVal.num 99999, PyVal.num 99999⟩ := by
    unfold expectedRow
    rw [hv2]
  refine ⟨h1.trans rfl, h2.trans (by rw [hrow]), ?_, fun q h => nomatch h⟩
  exact (h2.trans (by rw [hrow])).trans ((h3.trans (by rw [hrow2])).symm)

theorem sentinel_roundtrip_witness :
    goodName "a.png".toList ∧
    format_line (writeLine imgNA) =
      Except.ok (some ⟨natRepr 3, "a.png".toList, PyVal.str NAL, PyVal.str NAL,
        PyVal.str NAL⟩) ∧
    format_line (writeLine imgOOB) =
      Except.ok (some ⟨natRepr 3, "a.png".toList, PyVal.num 99999, PyVal.num 99999,
        PyVal.num 99999⟩) ∧
    PyVal.str NAL ≠ PyVal.num 99999 := by
  have h := sentinel_roundtrip "a.png".toList 3 (by decide)
  exact ⟨by decide, h.1, h.2.1, h.2.2.2 99999⟩

/-- The unamended distinguishability claim fails for the out-of-bounds
sentinel: the line written by the `invalid_trial` path and the line of a
genuine measurement whose three values are `99999.00` parse to the very
same row, although the written value texts differ. -/
theorem sentinel_counterexample :
    format_line (writeLine imgOOB) =
      format_line (writeLine ⟨"a.png".toList, 3, Stored.strv "99999.00".toList,
        Stored.strv "99999.00".toList, Stored.strv "99999.00".toList⟩) ∧
    renderStored imgOOB.radial ≠ "99999.00".toList := by
  exact ⟨by decide, by decide⟩

/-- Claim C6 (amended): a file containing a data line that starts with
`"ID"` but is missing one of the labels `"Radial"`, `"X-Axis"`, `"Y-Axis"`
makes the whole parse abort with an exception, no partial result set is
produced (`self.data` keeps its previous value), and every `IndexError`
escaping the parse carries only Python's generic message
`"list index out of range"` — the offending line content never appears in
the reported text. -/
theorem malformed_aborts (prev : Option (List (Option Row))) (lines : List (List Char))
    (l : List Char) (hmem : l ∈ lines) (hid : hasPfx LID l = true)
    (hmiss : occursB LRAD l = false ∨ occursB LX l = false ∨ occursB LY l = false) :
    (∃ e, readData lines = Except.error e) ∧
    dataAfterRead prev lines = prev ∧
    (∀ m, readData lines = Except.error (PyExc.indexError m) →
      m = IDXMSG ∧ occursB l (errLabel m) = false) := by
  have hmemf : l ∈ lines.filter fun l => !hasPfx ['='] (pyStrip l) :=
    List.mem_filter.mpr ⟨hmem, by rw [kept_of_id hid]; rfl⟩
  have habort : ∃ e, readData lines = Except.error e := by
    have := mapM_error_of_mem hmemf (format_line_error_of_missing hid hmiss)
    exact this
  refine ⟨habort, ?_, ?_⟩
  · unfold dataAfterRead
    obtain ⟨e, he⟩ := habort
    rw [he]
  · intro m hm
    unfold readData at hm
    obtain ⟨a, ha, hfa⟩ := mapM_error_source hm
    have hmI : m = IDXMSG := format_line_indexError_msg hfa
    subst hmI
    refine ⟨rfl, ?_⟩
    obtain ⟨t, rfl⟩ := hasPfx_iff.mp hid
    exact occursB_eq_false_of_not_mem (c := 'I')
      (List.mem_append.mpr (Or.inl (by decide))) (by decide)

theorem malformed_aborts_witness :
    lineNoY ∈ [lineNoY] ∧ hasPfx LID lineNoY = true ∧ occursB LY lineNoY = false ∧
    readData [lineNoY] = Except.error (PyExc.indexError IDXMSG) ∧
    dataAfterRead (some [some (expectedRow imgNum)]) [lineNoY] =
      some [some (expectedRow imgNum)] ∧
    occursB lineNoY (errLabel IDXMSG) = false := by
  have h := malformed_aborts (some [some (expectedRow imgNum)]) [lineNoY] lineNoY
    (by decide) (by decide) (Or.inr (Or.inr (by decide)))
  exact ⟨by decide, by decide, by decide, by decide, h.2.1, (h.2.2 IDXMSG (by decide)).2⟩

/-- The unamended claim that the reported error identifies the offending
line fails: two different malformed lines are reported with the identical
generic label, which contains no part of either line. -/
theorem malformed_counterexample :
    read_and_display_data none pathP [lineNoY] = Except.ok (none, errLabel IDXMSG) ∧
    read_and_display_data none pathP [lineNoRad] = Except.ok (none, errLabel IDXMSG) ∧
    lineNoY ≠ lineNoRad ∧
    occursB lineNoY (errLabel IDXMSG) = false ∧
    occursB lineNoRad (errLabel IDXMSG) = false := by
  exact ⟨by decide, by decide, by decide, by decide, by decide⟩

/-- Claim C9: a data line starting with `"ID"` whose five label lookups all
succeed but whose measurement tokens mix `"N/A"` with other text raises a
`ValueError` in `format_line` (from `float("N/A")`), which
`read_and_display_data` does not catch — the exception propagates to the
caller and `self.data` is left unchanged. -/
theorem mixed_na_valueerror (prev : Option (List (Option Row)))
    (path l tid tr tx ty : List Char)
    (hpfx : hasPfx LID l = true)
    (hID : tokenAfter LID l = Except.ok tid)
    (hR : tokenAfter LRAD l = Except.ok tr)
    (hX : tokenAfter LX l = Except.ok tx)
    (hY : tokenAfter LY l = Except.ok ty)
    (hsome : tr = NAL ∨ tx = NAL ∨ ty = NAL)
    (hnotall : ¬(tr = NAL ∧ tx = NAL ∧ ty = NAL)) :
    ∃ m, format_line l = Except.error (PyExc.valueError m) ∧
      read_and_display_data prev path [l] = Except.error (PyExc.valueError m) ∧
      dataAfterRead prev [l] = prev := by
  obtain ⟨m, hm⟩ := format_line_valueError_of_mixed hpfx hID hR hX hY hsome hnotall
  have hread : readData [l] = Except.error (PyExc.valueError m) := by
    unfold readData
    rw [List.filter_cons, kept_of_id hpfx]
    simp only [Bool.not_false, if_true, List.filter_nil, List.mapM_cons, hm,
      except_bind_error]
  refine ⟨m, hm, read_valueError prev path l m hm (kept_of_id hpfx), ?_⟩
  unfold dataAfterRead
  rw [hread]

theorem mixed_na_valueerror_witness :
    format_line (writeLine imgMixed) =
      Except.error (PyExc.valueError ("could not convert string to float: ".toList ++ NAL)) ∧
    read_and_display_data none pathP [writeLine imgMixed] =
      Except.error (PyExc.valueError ("could not convert string to float: ".toList ++ NAL)) ∧
    dataAfterRead none [writeLine imgMixed] = none := by
  obtain ⟨m, h1, h2, h3⟩ := mixed_na_valueerror none pathP (writeLine imgMixed)
    "0".toList NAL "1.00".toList "2.00".toList
    (by decide) (by decide) (by decide) (by decide) (by decide)
    (Or.inl rfl) (by decide)
  exact ⟨by decide, by decide, h3⟩

/-- Claim C10 (amended): a line whose stripped text does not start with
`"="` and which does not begin with `"ID"` makes `format_line` return
`None` (neither a row nor an error), so the comprehension includes a null
entry in its row list — but `read_and_display_data` does not then succeed
silently: the `pd.DataFrame` call on a row list containing `None` raises an
exception that the `except IndexError` clause does not catch, so the load
fails, the `Loaded data from` label is never set, and `self.data` keeps its
previous value. -/
theorem non_data_line_none (prev : Option (List (Option Row))) (path l : List Char)
    (hkeep : hasPfx ['='] (pyStrip l) = false) (hid : hasPfx LID l = false) :
    format_line l = Except.ok none ∧
    readData [l] = Except.ok [none] ∧
    read_and_display_data prev path [l] = Except.error PyExc.pandasError ∧
    dataAfterRead prev [l] = prev := by
  refine ⟨format_line_none hid, readData_single_none hkeep hid, ?_, ?_⟩
  · unfold read_and_display_data
    rw [readData_single_none hkeep hid]
    rfl
  · unfold dataAfterRead
    rw [readData_single_none hkeep hid]
    rfl

theorem non_data_line_none_witness :
    hasPfx ['='] (pyStrip lineJunk) = false ∧ hasPfx LID lineJunk = false ∧
    format_line lineJunk = Except.ok none ∧
    readData [lineJunk] = Except.ok [none] ∧
    read_and_display_data none pathP [lineJunk] = Except.error PyExc.pandasError ∧
    dataAfterRead none [lineJunk] = none := by
  have h := non_data_line_none none pathP lineJunk (by decide) (by decide)
  exact ⟨by decide, by decide, h.1, h.2.1, h.2.2.1, h.2.2.2⟩

/-- The unamended claim's silent-inclusion reading fails: on a junk line
the comprehension does yield a `None` entry, but `read_and_display_data`
then raises out of the `pd.DataFrame` call instead of completing the load —
the clean outcome with the `Loaded data from` label is unreachable. -/
theorem non_data_counterexample :
    readData [lineJunk] = Except.ok [none] ∧
    read_and_display_data none pathP [lineJunk] ≠
      Except.ok (some [none], loadedLabel pathP) ∧
    read_and_display_data none pathP [lineJunk] = Except.error PyExc.pandasError := by
  exact ⟨by decide, by decide, by decide⟩

theorem scaling_factor_spec_witness :
    (calculate_scaling_factor 50 (100, 100) (100, 200) = Except.error DEGEN_MSG ↔
      ((100, 100) : ℝ × ℝ) = (100, 200)) ∧
    (((100, 100) : ℝ × ℝ) ≠ (100, 200) →
      calculate_scaling_factor 50 (100, 100) (100, 200) =
        Except.ok (50 / calculate_error (100, 100) (100, 200) 1)) :=
  scaling_factor_spec 50 (100, 100) (100, 200)

end PinPointer
